import Mathlib

/-!
# Task tracker: the `tasks` package

A shallow embedding of `tasks/tasks.go` (the `Task` record, the `Storage`
interface and the `TaskManager` methods) together with the in-memory
`mockStorage` of `tasks/tasks_test.go`, followed by theorems about them.

Conventions of the embedding:

* `int64` values are integers; the one arithmetic operation of the package,
  `tasks[len(tasks)-1].ID + 1`, is reduced into the `int64` range by
  `wrapInt64` (Go's signed overflow wraps around).
* `*time.Time` is `Option Time` (`none` is the nil pointer); `time.Now()` is
  the argument `now` of the method that reads the clock.
* a Go `error` is `Option String`: `none` is `nil`, `some m` an error whose
  `Error()` text is `m`.
* a method returns a `Result`: its error, the store afterwards, the arguments
  of the `WriteTasks` calls it made (in order) and what it printed.
* `ReadTasks` does not change the stored collection, so it is a function of the
  store; `WriteTasks` returns its error and the store it leaves.
-/

namespace TaskTracker

/-- An instant as returned by `time.Now()`, in nanoseconds since the epoch. -/
structure Time where
  unixNano : Int
deriving DecidableEq, Repr

/-- The `Task` struct of `tasks/tasks.go`. -/
structure Task where
  ID : Int
  Description : String
  Status : String
  CreatedAt : Option Time
  UpdatedAt : Option Time
deriving DecidableEq, Repr

/-- Reduction of an integer into the range of `int64` (two's complement). -/
def wrapInt64 (x : Int) : Int := (x + 2 ^ 63) % 2 ^ 64 - 2 ^ 63

/-- The verb `%d` of `fmt` applied to an `int64`. -/
def fmtD (n : Int) : String :=
  if n < 0 then "-" ++ toString n.natAbs else toString n.natAbs

/-- The verb `%-4d`: the decimal text, padded with blanks on the right up to width 4. -/
def fmtDLeft4 (n : Int) : String :=
  let s := fmtD n
  s ++ String.mk (List.replicate (4 - s.length) ' ')

/-- The lookup `map[string]string{...}[t.Status]` of `Task.String`; a missing
key yields the empty string. -/
def statusIcon (status : String) : String :=
  if status = "done" then "✅"
  else if status = "in-progress" then "🔄"
  else if status = "todo" then "📋"
  else ""

/-- The method `Task.String`: `fmt.Sprintf("%s ID: %-4d %s", statusIcon, t.ID, t.Description)`. -/
def Task.String (t : Task) : String :=
  statusIcon t.Status ++ " ID: " ++ fmtDLeft4 t.ID ++ " " ++ t.Description

/-- The `Storage` interface, over a type `σ` of backing-store states. -/
structure Storage (σ : Type) where
  ReadTasks : σ → Except String (List Task)
  WriteTasks : List Task → σ → Option String × σ

/-- What a `TaskManager` method did: the error it returned, the store it left,
the collections it passed to `WriteTasks`, and its output on stdout (one entry
per print call). -/
structure Result (σ : Type) where
  err : Option String
  store : σ
  writes : List (List Task)
  stdout : List String

/-- The id computed by `AddTask` (lines 45-48): 1, or the last task's id plus one. -/
def newID (tasks : List Task) : Int :=
  match tasks.getLast? with
  | some last => wrapInt64 (last.ID + 1)
  | none => 1

/-- The method `TaskManager.AddTask`. -/
def AddTask {σ : Type} (S : Storage σ) (now : Time) (description : String) (s : σ) :
    Result σ :=
  match S.ReadTasks s with
  | .error e => ⟨some ("failed to read tasks: " ++ e), s, [], []⟩
  | .ok tasks =>
    let newTask : Task := ⟨newID tasks, description, "todo", some now, some now⟩
    let tasks1 := tasks ++ [newTask]
    match S.WriteTasks tasks1 s with
    | (some e, s1) => ⟨some ("failed to write tasks: " ++ e), s1, [tasks1], []⟩
    | (none, s1) =>
      ⟨none, s1, [tasks1], ["Task added successfully (ID: " ++ fmtD newTask.ID ++ ")\n"]⟩

/-- The loop `for i, task := range tasks { if task.ID == id { tasks[i] = ...; return } }`
shared in shape by `UpdateTask` and `updateTaskStatus`: the first task whose id
is `id` is replaced by `f` of it; `none` when the loop runs to its end. -/
def scanFirst (id : Int) (f : Task → Task) : List Task → Option (List Task)
  | [] => none
  | task :: rest =>
    if task.ID = id then some (f task :: rest)
    else (scanFirst id f rest).map (fun r => task :: r)

/-- The method `TaskManager.UpdateTask`. -/
def UpdateTask {σ : Type} (S : Storage σ) (now : Time) (id : Int) (description : String)
    (s : σ) : Result σ :=
  match S.ReadTasks s with
  | .error e => ⟨some ("failed to read tasks: " ++ e), s, [], []⟩
  | .ok tasks =>
    match scanFirst id
        (fun t => { t with Description := description, UpdatedAt := some now }) tasks with
    | some tasks1 =>
      match S.WriteTasks tasks1 s with
      | (some e, s1) => ⟨some ("failed to write tasks: " ++ e), s1, [tasks1], []⟩
      | (none, s1) =>
        ⟨none, s1, [tasks1], ["Task updated successfully (ID: " ++ fmtD id ++ ")\n"]⟩
    | none => ⟨some ("task with ID " ++ fmtD id ++ " not found"), s, [], []⟩

/-- The loop of `DeleteTask` (lines 100-106) over the state `(newTasks, found)`. -/
def deleteLoop (id : Int) : List Task → List Task × Bool → List Task × Bool
  | [], acc => acc
  | task :: rest, (newTasks, found) =>
    if task.ID = id then deleteLoop id rest (newTasks, true)
    else deleteLoop id rest (newTasks ++ [task], found)

/-- The method `TaskManager.DeleteTask`. -/
def DeleteTask {σ : Type} (S : Storage σ) (id : Int) (s : σ) : Result σ :=
  match S.ReadTasks s with
  | .error e => ⟨some ("failed to read tasks: " ++ e), s, [], []⟩
  | .ok tasks =>
    match deleteLoop id tasks ([], false) with
    | (_, false) => ⟨some ("task with ID " ++ fmtD id ++ " not found"), s, [], []⟩
    | (newTasks, true) =>
      match S.WriteTasks newTasks s with
      | (some e, s1) => ⟨some ("failed to write tasks: " ++ e), s1, [newTasks], []⟩
      | (none, s1) => ⟨none, s1, [newTasks], []⟩

/-- The loop of `ListTasks` (lines 130-135): the lines printed, in order. -/
def listLoop (filter : String) : List Task → List String
  | [] => []
  | task :: rest =>
    if filter ≠ "" ∧ task.Status ≠ filter then listLoop filter rest
    else (task.String ++ "\n") :: listLoop filter rest

/-- The method `TaskManager.ListTasks`. -/
def ListTasks {σ : Type} (S : Storage σ) (filter : String) (s : σ) : Result σ :=
  match S.ReadTasks s with
  | .error e => ⟨some ("failed to read tasks: " ++ e), s, [], []⟩
  | .ok tasks =>
    if tasks.length = 0 then ⟨none, s, [], ["Looking good, no pending tasks 😄\n"]⟩
    else ⟨none, s, [], listLoop filter tasks⟩

/-- The method `TaskManager.updateTaskStatus`. -/
def updateTaskStatus {σ : Type} (S : Storage σ) (now : Time) (id : Int) (status : String)
    (s : σ) : Result σ :=
  match S.ReadTasks s with
  | .error e => ⟨some ("failed to read tasks: " ++ e), s, [], []⟩
  | .ok tasks =>
    match scanFirst id (fun t => { t with Status := status, UpdatedAt := some now }) tasks with
    | some tasks1 =>
      match S.WriteTasks tasks1 s with
      | (some e, s1) => ⟨some ("failed to write tasks: " ++ e), s1, [tasks1], []⟩
      | (none, s1) =>
        ⟨none, s1, [tasks1], ["Task status updated successfully (ID: " ++ fmtD id ++ ")\n"]⟩
    | none => ⟨some ("task with ID " ++ fmtD id ++ " not found"), s, [], []⟩

/-- The method `TaskManager.MarkTaskTodo`. -/
def MarkTaskTodo {σ : Type} (S : Storage σ) (now : Time) (id : Int) (s : σ) : Result σ :=
  updateTaskStatus S now id "todo" s

/-- The method `TaskManager.MarkTaskInProgress`. -/
def MarkTaskInProgress {σ : Type} (S : Storage σ) (now : Time) (id : Int) (s : σ) :
    Result σ :=
  updateTaskStatus S now id "in-progress" s

/-- The method `TaskManager.MarkTaskDone`. -/
def MarkTaskDone {σ : Type} (S : Storage σ) (now : Time) (id : Int) (s : σ) : Result σ :=
  updateTaskStatus S now id "done" s

/-- The `mockStorage` struct of `tasks/tasks_test.go`. -/
structure mockStorage where
  tasks : List Task
  err : Option String
deriving DecidableEq, Repr

/-- The method `mockStorage.ReadTasks`. -/
def mockStorage.ReadTasks (m : mockStorage) : Except String (List Task) :=
  match m.err with
  | some e => .error e
  | none => .ok m.tasks

/-- The method `mockStorage.WriteTasks`. -/
def mockStorage.WriteTasks (tasks : List Task) (m : mockStorage) :
    Option String × mockStorage :=
  match m.err with
  | some e => (some e, m)
  | none => (none, { m with tasks := tasks })

/-- The `mockStorage` as an implementation of the `Storage` interface. -/
def mockStore : Storage mockStorage := ⟨mockStorage.ReadTasks, mockStorage.WriteTasks⟩

/-- One call of a `TaskManager` method, with the value `time.Now()` returns in it. -/
inductive Op where
  | add (description : String) (now : Time)
  | update (id : Int) (description : String) (now : Time)
  | delete (id : Int)
  | markTodo (id : Int) (now : Time)
  | markInProgress (id : Int) (now : Time)
  | markDone (id : Int) (now : Time)
deriving DecidableEq, Repr

/-- Whether the call is an `AddTask`. -/
def Op.isAdd : Op → Bool
  | .add _ _ => true
  | _ => false

/-- The call performed on a store. -/
def Op.apply {σ : Type} (S : Storage σ) : Op → σ → Result σ
  | .add description now, s => AddTask S now description s
  | .update id description now, s => UpdateTask S now id description s
  | .delete id, s => DeleteTask S id s
  | .markTodo id now, s => MarkTaskTodo S now id s
  | .markInProgress id now, s => MarkTaskInProgress S now id s
  | .markDone id now, s => MarkTaskDone S now id s

/-- The store left by a sequence of calls, each one working on the store the
previous one left (whether it returned an error or not). -/
def run {σ : Type} (S : Storage σ) : List Op → σ → σ
  | [], s => s
  | op :: ops, s => run S ops (op.apply S s).store

/-- The ids given to new tasks by the successful `AddTask` calls of a sequence,
in call order: the id of the last task of the collection the call wrote. -/
def assignedIDs {σ : Type} (S : Storage σ) : List Op → σ → List Int
  | [], _ => []
  | op :: ops, s =>
    let r := op.apply S s
    let here : List Int :=
      match op.isAdd, r.err, r.writes.getLast? with
      | true, none, some w => (w.getLast?.map Task.ID).toList
      | _, _, _ => []
    here ++ assignedIDs S ops r.store

/-- The ids of a collection, in stored order. -/
def ids (tasks : List Task) : List Int := tasks.map Task.ID

/-- The maximum id present in a collection ("the current maximum" of the
specification); `none` for the empty collection. -/
def maxID (tasks : List Task) : Option Int := (ids tasks).max?

/-- The range of `int64`. -/
def inInt64 (x : Int) : Prop := -2 ^ 63 ≤ x ∧ x < 2 ^ 63

instance (x : Int) : Decidable (inInt64 x) := by unfold inInt64; infer_instance

/-- The empty store: a `mockStorage` holding no task, whose calls fail with
`err` when it is set. -/
def emptyStore (err : Option String) : mockStorage := ⟨[], err⟩

/-! ## Sample data -/

/-- A clock reading used in the examples. -/
def t0 : Time := ⟨1700000000000000000⟩

/-- A later clock reading used in the examples. -/
def t1 : Time := ⟨1700000060000000000⟩

/-- A stored task with id 1. -/
def groceries : Task := ⟨1, "Buy groceries", "todo", some t0, some t0⟩

/-- A stored task with id 2. -/
def dinner : Task := ⟨2, "Cook dinner", "in-progress", some t0, some t0⟩

/-- A stored task with id 5. -/
def report : Task := ⟨5, "Finish project report", "done", some t0, some t0⟩

/-- A second stored task with id 1. -/
def laundry : Task := ⟨1, "Do the laundry", "done", some t0, some t0⟩

/-- The place of an id in the order in which `AddTask` hands ids out from the
empty store: 1, 2, ..., the largest `int64`, the smallest `int64`, ..., 0. -/
def offset (x : Int) : Int := (x - 1) % 2 ^ 64

/-- The ids of a store reached by `n` calls of `AddTask` from the empty store:
they stand in hand-out order, and each is among the first `n` handed out. -/
def IdsOrdered (n : Nat) (l : List Int) : Prop :=
  (l.map offset).Pairwise (fun a b => a < b) ∧ ∀ x ∈ l, offset x < (n : Int)

/-- A sequence of calls that keeps the store small while the ids advance: two
`AddTask`, then `n` rounds of an `AddTask` followed by the `DeleteTask` of the
task that was last before it. -/
def churn : Nat → List Op
  | 0 => [Op.add "" t0, Op.add "" t0]
  | n + 1 => churn n ++ [Op.add "" t0, Op.delete (wrapInt64 ((n : Int) + 2))]

/-- The task `AddTask("")` creates at time `t0` with the given id. -/
def blank (id : Int) : Task := ⟨id, "", "todo", some t0, some t0⟩


/-! ## Files and JSON, as far as the program uses them -/

/-- The contents of a file. -/
abbrev Bytes := List UInt8

/-- The functions of `encoding/json` the program calls, at the type `[]Task`;
they are not part of the repository and enter as a parameter: `Marshal` is
`json.Marshal(tasks)`, `Unmarshal` is `json.Unmarshal(data, &tasks)` into a nil
slice. The model of the standard library's own functions is `goJSON`. -/
structure JSON where
  Marshal : List Task → Except String Bytes
  Unmarshal : Bytes → Except String (List Task)

/-- The state of one file of the file system: its contents (`none`: there is no
such file) and, for each operation of package `os` the program uses, the error
with which the operating system makes it fail, if it does. A failing `Write`
stops after the given number of bytes. -/
structure FileState where
  content : Option Bytes
  openErr : Option String
  readErr : Option String
  writeErr : Option (Nat × String)
  truncateErr : Option String
  seekErr : Option String

/-- The file system: the state of the file of each name. -/
abbrev Disk := String → FileState

/-- The file system with the state of one file replaced. -/
def Disk.set (disk : Disk) (name : String) (st : FileState) : Disk :=
  fun n => if n = name then st else disk n

/-- The contents after writing `data` at position `pos` of a file holding `old`:
bytes under the written range are overwritten, a gap before it is zero-filled. -/
def writeAt (old : Bytes) (pos : Nat) (data : Bytes) : Bytes :=
  old.take pos ++ List.replicate (pos - old.length) 0 ++ data ++ old.drop (pos + data.length)

/-- The call `os.OpenFile(name, os.O_RDWR|os.O_CREATE, 0644)`, with `os.O_TRUNC`
added when `trunc` is set: a missing file is created empty, and with `os.O_TRUNC`
the contents are cut to length 0. The handle it returns stands at position 0. -/
def OpenFile (disk : Disk) (name : String) (trunc : Bool) : Except String Disk :=
  match (disk name).openErr with
  | some e => .error e
  | none =>
    .ok (disk.set name
      { disk name with content := some (if trunc then [] else (disk name).content.getD []) })

/-- The call `io.ReadAll(file)` on a handle standing at position 0. -/
def ReadAll (st : FileState) : Except String Bytes :=
  match st.readErr with
  | some e => .error e
  | none => .ok (st.content.getD [])

/-- The call `file.Write(data)` on a handle standing at position `pos`. -/
def Write (st : FileState) (pos : Nat) (data : Bytes) : Option String × FileState :=
  match st.writeErr with
  | some (n, e) =>
    (some e, { st with content := some (writeAt (st.content.getD []) pos (data.take n)) })
  | none => (none, { st with content := some (writeAt (st.content.getD []) pos data) })

/-- The `FileStorage` struct of `storage/storage.go`. -/
structure FileStorage where
  filename : String
deriving DecidableEq, Repr

/-- The method `FileStorage.ReadTasks`: its results and the file system it leaves. -/
def FileStorage.ReadTasks (J : JSON) (fs : FileStorage) (disk : Disk) :
    Except String (List Task) × Disk :=
  match OpenFile disk fs.filename false with
  | .error e => (.error ("failed to open file: " ++ e), disk)
  | .ok disk1 =>
    match ReadAll (disk1 fs.filename) with
    | .error e => (.error ("failed to read file: " ++ e), disk1)
    | .ok data =>
      if data.length > 0 then
        match J.Unmarshal data with
        | .error e => (.error ("failed to unmarshal JSON data: " ++ e), disk1)
        | .ok tasks => (.ok tasks, disk1)
      else (.ok [], disk1)

/-- The method `FileStorage.WriteTasks`: its error and the file system it leaves. -/
def FileStorage.WriteTasks (J : JSON) (fs : FileStorage) (tasks : List Task) (disk : Disk) :
    Option String × Disk :=
  match OpenFile disk fs.filename true with
  | .error e => (some ("failed to open file: " ++ e), disk)
  | .ok disk1 =>
    match J.Marshal tasks with
    | .error e => (some ("failed to marshal tasks: " ++ e), disk1)
    | .ok data =>
      match Write (disk1 fs.filename) 0 data with
      | (some e, st) => (some ("failed to write tasks to file: " ++ e), disk1.set fs.filename st)
      | (none, st) => (none, disk1.set fs.filename st)

/-! ## The legacy program `main.go`

Its `Task` struct has the fields of the one of `tasks/tasks.go` (two JSON tags
are spelt differently), so `Task` stands for both. -/

namespace Legacy

/-- An open `*os.File`: the state of the file and the position of the handle. -/
structure File where
  st : FileState
  pos : Nat

/-- What a command of the legacy program did: the value it panicked with, if it
did, the file afterwards, the arguments of the calls of `writeToFile` it made,
and its output on stdout. -/
structure Outcome where
  panic : Option String
  file : File
  writes : List (List Task)
  stdout : List String

/-- The call `strconv.ParseInt(s, 10, 64)` of the standard library, `none` when it
returns an error: an optional sign, then one or more decimal digits, and the
value has to lie in the range of `int64`. -/
def ParseInt (s : String) : Option Int :=
  let digits : List Char :=
    match s.toList with
    | '+' :: r => r
    | '-' :: r => r
    | cs => cs
  let negative : Bool :=
    match s.toList with
    | '-' :: _ => true
    | _ => false
  if digits = [] ∨ ¬ digits.all Char.isDigit then none
  else
    let n : Int := (digits.foldl (fun a c => 10 * a + (c.toNat - 48)) 0 : Nat)
    let v : Int := if negative then -n else n
    if inInt64 v then some v else none

/-- The built-in `make([]Task, len, cap)` with run-time arguments: a slice of
`len` zero tasks, or the run-time panic of `makeslice`. -/
def makeSlice (len cap : Int) : Except String (List Task) :=
  if len < 0 then .error "runtime error: makeslice: len out of range"
  else if len > cap then .error "runtime error: makeslice: cap out of range"
  else .ok (List.replicate len.toNat ⟨0, "", "", none, none⟩)

/-- The function `writeToFile`; the text of its two wrapped errors is what
`fmt.Errorf` makes of a format without a verb and one extra argument. -/
def writeToFile (J : JSON) (file : File) (tasks : List Task) : Option String × File :=
  match file.st.truncateErr with
  | some e => (some e, file)
  | none =>
    let file1 : File := { file with st := { file.st with content := some [] } }
    match file1.st.seekErr with
    | some e => (some e, file1)
    | none =>
      let file2 : File := { file1 with pos := 0 }
      match J.Marshal tasks with
      | .error e => (some ("Error while marshal tasks%!(EXTRA string=" ++ e ++ ")"), file2)
      | .ok data =>
        match Write file2.st file2.pos data with
        | (some e, st) =>
          (some ("Error while write to file%!(EXTRA string=" ++ e ++ ")"),
            { st := st, pos := file2.pos + min data.length ((file2.st.writeErr.map Prod.fst).getD 0) })
        | (none, st) => (none, { st := st, pos := file2.pos + data.length })

/-- The function `deleteTask`. -/
def deleteTask (J : JSON) (args : List String) (file : File) (tasks : List Task) : Outcome :=
  match args with
  | [] => ⟨some "Invalid argument", file, [], []⟩
  | arg0 :: _ =>
    match ParseInt arg0 with
    | none => ⟨some ("Invalid ID " ++ arg0), file, [], []⟩
    | some id =>
      match makeSlice 0 ((tasks.length : Int) - 1) with
      | .error e => ⟨some e, file, [], []⟩
      | .ok empty =>
        let newTasks := tasks.foldl
          (fun newTasks task => if task.ID = id then newTasks else newTasks ++ [task]) empty
        match writeToFile J file newTasks with
        | (some e, file1) => ⟨some (e ++ "\n"), file1, [newTasks], []⟩
        | (none, file1) =>
          ⟨none, file1, [newTasks], ["Task deleted successfully (ID: " ++ fmtD id ++ ")\n"]⟩

end Legacy

/-! ## Sample files -/

/-- A file system in which every file holds 200 stale bytes and no operation fails. -/
def staleDisk : Disk := fun _ => ⟨some (List.replicate 200 120), none, none, none, none, none⟩

/-! ## The JSON encoding of `[]Task`

A model of what `json.Marshal` and `json.Unmarshal` of the standard library do
at the type `[]tasks.Task`, written from the documentation of `encoding/json`,
`time` and `unicode/utf8`. A Go string is modelled by a `String`, so it is
valid UTF-8; the location of a `time.Time` is not modelled and an instant is
formatted in UTC. `Unmarshal` reads documents in the form `Marshal` writes (the
keys in the order of the struct, no white space between tokens) and refuses
every other document with one error text. -/

/-- The UTF-8 encoding of a character, as numbers below 256. -/
def utf8EncodeChar (c : Char) : List Nat :=
  if c.toNat < 0x80 then [c.toNat]
  else if c.toNat < 0x800 then [0xC0 + c.toNat / 64, 0x80 + c.toNat % 64]
  else if c.toNat < 0x10000 then
    [0xE0 + c.toNat / 4096, 0x80 + c.toNat / 64 % 64, 0x80 + c.toNat % 64]
  else
    [0xF0 + c.toNat / 262144, 0x80 + c.toNat / 4096 % 64, 0x80 + c.toNat / 64 % 64,
      0x80 + c.toNat % 64]

/-- The bytes of a text. -/
def utf8Encode (s : List Char) : Bytes := (s.flatMap utf8EncodeChar).map Nat.toUInt8

/-- Whether a byte is a continuation byte of UTF-8. -/
def isCont (b : Nat) : Bool := 0x80 ≤ b ∧ b < 0xC0

/-- The function `utf8.DecodeRune`: the first rune of the input and the input
after it; a byte that does not start a well-formed encoding yields U+FFFD and is
skipped alone. -/
def decodeRune : List Nat → Char × List Nat
  | [] => (Char.ofNat 0xFFFD, [])
  | b0 :: rest =>
    if b0 < 0x80 then (Char.ofNat b0, rest)
    else
      match rest with
      | b1 :: b2 :: b3 :: rest3 =>
        if 0xC2 ≤ b0 ∧ b0 < 0xE0 ∧ isCont b1 then
          (Char.ofNat ((b0 - 0xC0) * 64 + (b1 - 0x80)), b2 :: b3 :: rest3)
        else if 0xE0 ≤ b0 ∧ b0 < 0xF0 ∧ isCont b1 ∧ isCont b2 ∧
            0x800 ≤ (b0 - 0xE0) * 4096 + (b1 - 0x80) * 64 + (b2 - 0x80) ∧
            ¬ (0xD800 ≤ (b0 - 0xE0) * 4096 + (b1 - 0x80) * 64 + (b2 - 0x80) ∧
              (b0 - 0xE0) * 4096 + (b1 - 0x80) * 64 + (b2 - 0x80) < 0xE000) then
          (Char.ofNat ((b0 - 0xE0) * 4096 + (b1 - 0x80) * 64 + (b2 - 0x80)), b3 :: rest3)
        else if 0xF0 ≤ b0 ∧ b0 < 0xF5 ∧ isCont b1 ∧ isCont b2 ∧ isCont b3 ∧
            0x10000 ≤ (b0 - 0xF0) * 262144 + (b1 - 0x80) * 4096 + (b2 - 0x80) * 64 +
              (b3 - 0x80) ∧
            (b0 - 0xF0) * 262144 + (b1 - 0x80) * 4096 + (b2 - 0x80) * 64 + (b3 - 0x80) <
              0x110000 then
          (Char.ofNat ((b0 - 0xF0) * 262144 + (b1 - 0x80) * 4096 + (b2 - 0x80) * 64 +
            (b3 - 0x80)), rest3)
        else (Char.ofNat 0xFFFD, rest)
      | [b1, b2] =>
        if 0xC2 ≤ b0 ∧ b0 < 0xE0 ∧ isCont b1 then
          (Char.ofNat ((b0 - 0xC0) * 64 + (b1 - 0x80)), [b2])
        else if 0xE0 ≤ b0 ∧ b0 < 0xF0 ∧ isCont b1 ∧ isCont b2 ∧
            0x800 ≤ (b0 - 0xE0) * 4096 + (b1 - 0x80) * 64 + (b2 - 0x80) ∧
            ¬ (0xD800 ≤ (b0 - 0xE0) * 4096 + (b1 - 0x80) * 64 + (b2 - 0x80) ∧
              (b0 - 0xE0) * 4096 + (b1 - 0x80) * 64 + (b2 - 0x80) < 0xE000) then
          (Char.ofNat ((b0 - 0xE0) * 4096 + (b1 - 0x80) * 64 + (b2 - 0x80)), [])
        else (Char.ofNat 0xFFFD, rest)
      | [b1] =>
        if 0xC2 ≤ b0 ∧ b0 < 0xE0 ∧ isCont b1 then
          (Char.ofNat ((b0 - 0xC0) * 64 + (b1 - 0x80)), [])
        else (Char.ofNat 0xFFFD, rest)
      | [] => (Char.ofNat 0xFFFD, rest)

/-- Rune after rune, for at most `fuel` runes. -/
def utf8DecodeFuel : Nat → List Nat → List Char
  | 0, _ => []
  | _ + 1, [] => []
  | fuel + 1, b :: s => (decodeRune (b :: s)).1 :: utf8DecodeFuel fuel (decodeRune (b :: s)).2

/-- The runes of a sequence of bytes (a rune takes at least one byte). -/
def utf8DecodeNat (s : List Nat) : List Char := utf8DecodeFuel s.length s

/-- The text of a file's bytes. -/
def utf8Decode (data : Bytes) : List Char := utf8DecodeNat (data.map UInt8.toNat)

/-- Four lower-case hexadecimal digits. -/
def hex4 (n : Nat) : List Char :=
  [Nat.digitChar (n / 4096 % 16), Nat.digitChar (n / 256 % 16), Nat.digitChar (n / 16 % 16),
    Nat.digitChar (n % 16)]

/-- How `json.Marshal` writes one character of a string (HTML escaping is on). -/
def escapeChar (c : Char) : List Char :=
  if c = '"' then ['\\', '"']
  else if c = '\\' then ['\\', '\\']
  else if c = '\n' then ['\\', 'n']
  else if c = '\r' then ['\\', 'r']
  else if c = '\t' then ['\\', 't']
  else if c.toNat < 0x20 ∨ c = '<' ∨ c = '>' ∨ c = '&' ∨ c.toNat = 0x2028 ∨ c.toNat = 0x2029 then
    '\\' :: 'u' :: hex4 c.toNat
  else [c]

/-- A string as a JSON string literal. -/
def quote (s : String) : List Char := '"' :: (s.toList.flatMap escapeChar ++ ['"'])

/-- The value of a hexadecimal digit. -/
def hexVal (c : Char) : Option Nat :=
  if '0' ≤ c ∧ c ≤ '9' then some (c.toNat - 48)
  else if 'a' ≤ c ∧ c ≤ 'f' then some (c.toNat - 87)
  else if 'A' ≤ c ∧ c ≤ 'F' then some (c.toNat - 55)
  else none

/-- The value of four hexadecimal digits. -/
def unhex4 (a b c d : Char) : Option Nat :=
  match hexVal a, hexVal b, hexVal c, hexVal d with
  | some x, some y, some z, some w => some (((x * 16 + y) * 16 + z) * 16 + w)
  | _, _, _, _ => none

/-- The character of a one-letter escape. -/
def simpleEscape (e : Char) : Option Char :=
  if e = '"' then some '"'
  else if e = '\\' then some '\\'
  else if e = '/' then some '/'
  else if e = 'b' then some (Char.ofNat 8)
  else if e = 'f' then some (Char.ofNat 12)
  else if e = 'n' then some '\n'
  else if e = 'r' then some '\r'
  else if e = 't' then some '\t'
  else none

/-- The trailing half of a surrogate pair written as an escape, at the head of the input. -/
def lowSurrogate (s : List Char) : Option (Nat × List Char) :=
  match s with
  | b :: u :: h1 :: h2 :: h3 :: h4 :: rest =>
    if b = '\\' ∧ u = 'u' then
      match unhex4 h1 h2 h3 h4 with
      | some lo => if 0xDC00 ≤ lo ∧ lo < 0xE000 then some (lo, rest) else none
      | none => none
    else none
  | _ => none

/-- One character of the inside of a JSON string literal, `c` being its first
input character and not the closing quote: the character denoted and the
input after it; `none` when the literal is malformed. An escaped surrogate
that has no partner denotes U+FFFD. -/
def unquoteStep (c : Char) (rest : List Char) : Option (Char × List Char) :=
  if c = '\\' then
    match rest with
    | [] => none
    | e :: rest1 =>
      if e = 'u' then
        match rest1 with
        | h1 :: h2 :: h3 :: h4 :: rest2 =>
          match unhex4 h1 h2 h3 h4 with
          | none => none
          | some cp =>
            if 0xD800 ≤ cp ∧ cp < 0xE000 then
              match lowSurrogate rest2 with
              | some (lo, rest3) =>
                if cp < 0xDC00 then
                  some (Char.ofNat (0x10000 + (cp - 0xD800) * 1024 + (lo - 0xDC00)), rest3)
                else some (Char.ofNat 0xFFFD, rest2)
              | none => some (Char.ofNat 0xFFFD, rest2)
            else some (Char.ofNat cp, rest2)
        | _ => none
      else (simpleEscape e).map fun x => (x, rest1)
  else if c.toNat < 0x20 then none
  else some (c, rest)

/-- The inside of a JSON string literal, character after character, for at most
`fuel` input characters. -/
def unquoteFuel : Nat → List Char → Option (List Char × List Char)
  | 0, _ => none
  | _ + 1, [] => none
  | fuel + 1, c :: rest =>
    if c = '"' then some ([], rest)
    else
      match unquoteStep c rest with
      | none => none
      | some (x, rest1) => (unquoteFuel fuel rest1).map fun r => (x :: r.1, r.2)

/-- The inside of a JSON string literal up to its closing quote: the string it
denotes and the input after the quote; `none` when the literal is malformed. -/
def unquoteBody (s : List Char) : Option (List Char × List Char) := unquoteFuel s.length s

/-- A JSON string literal at the head of the input. -/
def parseString (s : List Char) : Option (String × List Char) :=
  match s with
  | c :: body => if c = '"' then (unquoteBody body).map fun r => (String.mk r.1, r.2) else none
  | [] => none

/-- An `int64` in decimal, as `json.Marshal` writes it. -/
def formatInt (n : Int) : List Char :=
  if n < 0 then '-' :: Nat.toDigits 10 n.natAbs else Nat.toDigits 10 n.natAbs

/-- The number a run of decimal digits denotes. -/
def digitsValue (ds : List Char) : Nat := ds.foldl (fun a c => 10 * a + (c.toNat - 48)) 0

/-- The digits of a JSON number read into an `int64` field, `negative` telling
whether a minus sign came before them: digits without a superfluous leading
zero; a fraction, an exponent or a value outside `int64` is an error. -/
def parseDigits (negative : Bool) (s : List Char) : Option (Int × List Char) :=
  let ds := s.takeWhile Char.isDigit
  let rest := s.dropWhile Char.isDigit
  if ds = [] then none
  else if 1 < ds.length ∧ ds.head? = some '0' then none
  else if rest.head? = some '.' ∨ rest.head? = some 'e' ∨ rest.head? = some 'E' then none
  else
    let v : Int := if negative then -(digitsValue ds : Int) else (digitsValue ds : Int)
    if inInt64 v then some (v, rest) else none

/-- A JSON number at the head of the input, read into an `int64` field. -/
def parseInt64 (s : List Char) : Option (Int × List Char) :=
  if s.head? = some '-' then parseDigits true s.tail else parseDigits false s

/-- The year, counted from 1 March of year 0, and the day of that year of the
day `z` days after 1 March of year 0 (Gregorian calendar): 400, 100, 4 and 1
year cycles are cut off in turn, the last year of a cycle taking the leap day. -/
def yearDay (z : Int) : Int × Int :=
  let a := z / 146097
  let r400 := z % 146097
  let b := min (r400 / 36524) 3
  let r100 := r400 - 36524 * b
  let c := r100 / 1461
  let r4 := r100 % 1461
  let e := min (r4 / 365) 3
  (400 * a + 100 * b + 4 * c + e, r4 - 365 * e)

/-- The calendar date (year, month, day) of the day `days` days after 1 January 1970. -/
def civil (days : Int) : Int × Int × Int :=
  let yd := yearDay (days + 719468)
  let mp := (5 * yd.2 + 2) / 153
  let d := yd.2 - (153 * mp + 2) / 5 + 1
  let m := if mp < 10 then mp + 3 else mp - 9
  (yd.1 + (if m ≤ 2 then 1 else 0), m, d)

/-- Whether a year is a leap year. -/
def isLeap (y : Int) : Bool := y % 4 = 0 ∧ (y % 100 ≠ 0 ∨ y % 400 = 0)

/-- The number of days of a month. -/
def daysIn (y m : Int) : Int :=
  if m = 2 then (if isLeap y then 29 else 28)
  else if m = 4 ∨ m = 6 ∨ m = 9 ∨ m = 11 then 30
  else 31

/-- The number of days from 1 January 1970 to a calendar date. -/
def daysFromCivil (y m d : Int) : Int :=
  let y1 := if m ≤ 2 then y - 1 else y
  let mp := if m ≤ 2 then m + 9 else m - 3
  146097 * (y1 / 400) + 36524 * (y1 % 400 / 100) + 1461 * (y1 % 100 / 4) + 365 * (y1 % 4) +
    ((153 * mp + 2) / 5 + d - 1) - 719468

/-- The year of an instant, in UTC. -/
def Time.year (t : Time) : Int := (civil (t.unixNano / 1000000000 / 86400)).1

/-- A number below 100 in two digits. -/
def pad2 (n : Nat) : List Char := [Nat.digitChar (n / 10 % 10), Nat.digitChar (n % 10)]

/-- A number below 10000 in four digits. -/
def pad4 (n : Nat) : List Char :=
  [Nat.digitChar (n / 1000 % 10), Nat.digitChar (n / 100 % 10), Nat.digitChar (n / 10 % 10),
    Nat.digitChar (n % 10)]

/-- A number below 10^9 in nine digits. -/
def pad9 (n : Nat) : List Char :=
  [Nat.digitChar (n / 100000000 % 10), Nat.digitChar (n / 10000000 % 10),
    Nat.digitChar (n / 1000000 % 10), Nat.digitChar (n / 100000 % 10),
    Nat.digitChar (n / 10000 % 10), Nat.digitChar (n / 1000 % 10), Nat.digitChar (n / 100 % 10),
    Nat.digitChar (n / 10 % 10), Nat.digitChar (n % 10)]

/-- A run of digits without its trailing zeros. -/
def trimZeros : List Char → List Char
  | [] => []
  | c :: cs => if trimZeros cs = [] ∧ c = '0' then [] else c :: trimZeros cs

/-- The fraction of a second of the layout `RFC3339Nano`: nothing when it is
zero, else a period and the nanoseconds without trailing zeros. -/
def formatFraction (nsec : Nat) : List Char :=
  if trimZeros (pad9 nsec) = [] then [] else '.' :: trimZeros (pad9 nsec)

/-- The method `Time.MarshalJSON` without the quotes, for an instant in UTC: the
layout `RFC3339Nano`, and an error when the year does not have four digits. -/
def formatTime (t : Time) : Except String (List Char) :=
  let sec := t.unixNano / 1000000000
  let nsec := t.unixNano % 1000000000
  let date := civil (sec / 86400)
  let sod := sec % 86400
  if date.1 < 0 ∨ 9999 < date.1 then
    .error "Time.MarshalJSON: year outside of range [0,9999]"
  else
    .ok (pad4 date.1.toNat ++ '-' :: pad2 date.2.1.toNat ++ '-' :: pad2 date.2.2.toNat ++
      'T' :: pad2 (sod / 3600).toNat ++ ':' :: pad2 (sod % 3600 / 60).toNat ++
      ':' :: pad2 (sod % 60).toNat ++ formatFraction nsec.toNat ++ ['Z'])

/-- Exactly `k` decimal digits at the head of the input, after the value `acc`. -/
def readDigits : Nat → Nat → List Char → Option (Nat × List Char)
  | 0, acc, s => some (acc, s)
  | _ + 1, _, [] => none
  | k + 1, acc, c :: s => if c.isDigit then readDigits k (10 * acc + (c.toNat - 48)) s else none

/-- The given character at the head of the input. -/
def expectChar (c : Char) : List Char → Option (List Char)
  | [] => none
  | d :: s => if d = c then some s else none

/-- An optional fraction of a second: a period and digits, of which nine count;
the nanoseconds and the input after it. -/
def parseFraction (s : List Char) : Nat × List Char :=
  match s with
  | p :: d :: rest =>
    if p = '.' ∧ d.isDigit then
      (digitsValue ((d :: rest).takeWhile Char.isDigit |>.take 9) *
          10 ^ (9 - ((d :: rest).takeWhile Char.isDigit |>.take 9).length),
        (d :: rest).dropWhile Char.isDigit)
    else (0, s)
  | _ => (0, s)

/-- The zone at the end of a time: `Z`, or a sign, hours below 24, a colon and
minutes below 60; its offset in seconds. -/
def parseZone (s : List Char) : Option Int :=
  match s with
  | [z] => if z = 'Z' then some 0 else none
  | [sign, h1, h2, colon, m1, m2] =>
    match readDigits 2 0 [h1, h2], readDigits 2 0 [m1, m2] with
    | some (hh, _), some (mm, _) =>
      if colon = ':' ∧ hh < 24 ∧ mm < 60 then
        if sign = '+' then some ((hh * 60 + mm) * 60 : Nat)
        else if sign = '-' then some (-(((hh * 60 + mm) * 60 : Nat) : Int))
        else none
      else none
    | _, _ => none
  | _ => none

/-- The strict parser of RFC 3339 that `Time.UnmarshalJSON` applies to what
stands between the quotes: the instant, or `none` when the text is refused. -/
def parseTime (s : List Char) : Option Time :=
  match readDigits 4 0 s with
  | none => none
  | some (y, s1) =>
  match (expectChar '-' s1).bind (readDigits 2 0) with
  | none => none
  | some (m, s2) =>
  match (expectChar '-' s2).bind (readDigits 2 0) with
  | none => none
  | some (d, s3) =>
  match (expectChar 'T' s3).bind (readDigits 2 0) with
  | none => none
  | some (hh, s4) =>
  match (expectChar ':' s4).bind (readDigits 2 0) with
  | none => none
  | some (mi, s5) =>
  match (expectChar ':' s5).bind (readDigits 2 0) with
  | none => none
  | some (ss, s6) =>
  match parseZone (parseFraction s6).2 with
  | none => none
  | some off =>
    if 1 ≤ m ∧ m ≤ 12 ∧ 1 ≤ d ∧ (d : Int) ≤ daysIn y m ∧ hh < 24 ∧ mi < 60 ∧ ss < 60 then
      some ⟨((daysFromCivil y m d * 86400 + hh * 3600 + mi * 60 + ss - off) * 1000000000 +
        (parseFraction s6).1)⟩
    else none

/-- The given text at the head of the input. -/
def expect : List Char → List Char → Option (List Char)
  | [], s => some s
  | _ :: _, [] => none
  | c :: cs, d :: s => if d = c then expect cs s else none

/-- A `*time.Time` field as `json.Marshal` writes it: `null` for the nil pointer,
else the text of `Time.MarshalJSON`, whose error `json.Marshal` wraps. -/
def marshalTime : Option Time → Except String (List Char)
  | none => .ok "null".toList
  | some t =>
    match formatTime t with
    | .error e => .error ("json: error calling MarshalJSON for type *time.Time: " ++ e)
    | .ok text => .ok ('"' :: (text ++ ['"']))

/-- A `*time.Time` field read back: `null`, or a string literal whose inside, up
to the next quote, `Time.UnmarshalJSON` parses without unescaping it. -/
def parseTimeField (s : List Char) : Option (Option Time × List Char) :=
  match expect "null".toList s with
  | some rest => some (none, rest)
  | none =>
    match s with
    | [] => none
    | q :: body =>
      if q = '"' then
        match body.dropWhile (fun c => c != '"') with
        | [] => none
        | _ :: rest => (parseTime (body.takeWhile (fun c => c != '"'))).map fun t => (some t, rest)
      else none

/-- The text before the id of a task object. -/
def keyID : List Char := "\x7b\"id\":".toList

/-- The text before the description of a task object. -/
def keyDescription : List Char := ",\"description\":".toList

/-- The text before the status of a task object. -/
def keyStatus : List Char := ",\"status\":".toList

/-- The text before the creation time of a task object. -/
def keyCreatedAt : List Char := ",\"createdAt\":".toList

/-- The text before the update time of a task object. -/
def keyUpdatedAt : List Char := ",\"updatedAt\":".toList

/-- A `Task` as `json.Marshal` writes it: the fields in the order of the struct
under the names of their tags. -/
def marshalTask (t : Task) : Except String (List Char) :=
  match marshalTime t.CreatedAt with
  | .error e => .error e
  | .ok created =>
    match marshalTime t.UpdatedAt with
    | .error e => .error e
    | .ok updated =>
      .ok (keyID ++ (formatInt t.ID ++ (keyDescription ++ (quote t.Description ++
        (keyStatus ++ (quote t.Status ++ (keyCreatedAt ++ (created ++
          (keyUpdatedAt ++ (updated ++ ['\x7d']))))))))))

/-- A task object at the head of the input. -/
def parseTask (s : List Char) : Option (Task × List Char) :=
  (expect keyID s).bind fun s1 =>
  (parseInt64 s1).bind fun r1 =>
  (expect keyDescription r1.2).bind fun s2 =>
  (parseString s2).bind fun r2 =>
  (expect keyStatus r2.2).bind fun s3 =>
  (parseString s3).bind fun r3 =>
  (expect keyCreatedAt r3.2).bind fun s4 =>
  (parseTimeField s4).bind fun r4 =>
  (expect keyUpdatedAt r4.2).bind fun s5 =>
  (parseTimeField s5).bind fun r5 =>
  (expectChar '\x7d' r5.2).map fun s6 => (⟨r1.1, r2.1, r3.1, r4.1, r5.1⟩, s6)

/-- The elements of a non-empty array of tasks, separated by commas; the first
element that cannot be written makes the whole fail. -/
def marshalList : List Task → Except String (List Char)
  | [] => .ok []
  | [t] => marshalTask t
  | t :: t2 :: rest =>
    match marshalTask t with
    | .error e => .error e
    | .ok a =>
      match marshalList (t2 :: rest) with
      | .error e => .error e
      | .ok b => .ok (a ++ ',' :: b)

/-- The text `json.Marshal` makes of a slice of tasks that is not nil (for the
nil slice it is `null`, which `unmarshalText` reads as the empty collection too). -/
def marshalText (tasks : List Task) : Except String (List Char) :=
  match marshalList tasks with
  | .error e => .error e
  | .ok body => .ok ('[' :: (body ++ [']']))

/-- The elements of a non-empty array of tasks up to the closing bracket, for at
most `fuel` elements. -/
def parseElems : Nat → List Char → Option (List Task × List Char)
  | 0, _ => none
  | fuel + 1, s =>
    match parseTask s with
    | none => none
    | some (t, rest) =>
      match rest with
      | c :: rest1 =>
        if c = ',' then (parseElems fuel rest1).map fun r => (t :: r.1, r.2)
        else if c = ']' then some ([t], rest1)
        else none
      | [] => none

/-- What `json.Unmarshal(data, &tasks)` makes of a text, for a nil `tasks`. -/
def unmarshalText (s : List Char) : Except String (List Task) :=
  if s = "null".toList ∨ s = "[]".toList then .ok []
  else
    match s with
    | [] => .error "unexpected end of JSON input"
    | c :: rest =>
      if c = '[' then
        match parseElems rest.length rest with
        | some (tasks, []) => .ok tasks
        | _ => .error "invalid JSON document"
      else .error "invalid JSON document"

/-- The functions `json.Marshal` and `json.Unmarshal` at the type `[]tasks.Task`. -/
def goJSON : JSON where
  Marshal := fun tasks =>
    match marshalText tasks with
    | .error e => .error e
    | .ok text => .ok (utf8Encode text)
  Unmarshal := fun data => unmarshalText (utf8Decode data)

/-- Whether a timestamp is nil or has a year of four digits (0 to 9999) in UTC,
which is what `Time.MarshalJSON` accepts. -/
def yearsOK : Option Time → Prop
  | none => True
  | some t => 0 ≤ t.year ∧ t.year ≤ 9999

instance (o : Option Time) : Decidable (yearsOK o) := by
  cases o <;> unfold yearsOK <;> infer_instance

/-- A task that `json.Marshal` can write: its id is an `int64` (as that of every
Go value is) and its timestamps are nil or have years of four digits. -/
def Task.writable (t : Task) : Prop := inInt64 t.ID ∧ yearsOK t.CreatedAt ∧ yearsOK t.UpdatedAt

instance (t : Task) : Decidable t.writable := by unfold Task.writable; infer_instance

/-- The instant 10000-01-01T00:00:00Z, the first whose year has five digits. -/
def year10000 : Time := ⟨253402300800000000000⟩

/-- A task created in the year 10000. -/
def farAhead : Task := ⟨1, "Buy groceries", "todo", some year10000, some year10000⟩

/-! ## The loops and the methods, case by case -/

theorem wrapInt64_succ_of_lt (x : Int) (h : inInt64 x) (hx : x ≠ 2 ^ 63 - 1) :
    wrapInt64 (x + 1) = x + 1 := by
  unfold inInt64 at h
  unfold wrapInt64
  omega

theorem maxID_eq_of_le (tasks : List Task) (m : Task) (hm : m ∈ tasks)
    (hle : ∀ u ∈ tasks, u.ID ≤ m.ID) : maxID tasks = some m.ID := by
  unfold maxID ids
  haveI : Std.Antisymm (fun (a b : Int) => a ≤ b) := ⟨fun h1 h2 => le_antisymm h1 h2⟩
  rw [List.max?_eq_some_iff (fun a => le_refl a) (fun a b => max_choice a b)
    (fun a b c => max_le_iff)]
  constructor
  · exact List.mem_map_of_mem _ hm
  · intro b hb
    obtain ⟨u, hu, rfl⟩ := List.mem_map.1 hb
    exact hle u hu

theorem AddTask_ok {σ : Type} (S : Storage σ) (s : σ) (tasks : List Task) (now : Time)
    (d : String) (hread : S.ReadTasks s = .ok tasks) :
    (AddTask S now d s).writes = [tasks ++ [⟨newID tasks, d, "todo", some now, some now⟩]] ∧
    (AddTask S now d s).store =
      (S.WriteTasks (tasks ++ [⟨newID tasks, d, "todo", some now, some now⟩]) s).2 ∧
    ((AddTask S now d s).err = none ↔
      (S.WriteTasks (tasks ++ [⟨newID tasks, d, "todo", some now, some now⟩]) s).1 = none) := by
  unfold AddTask
  rw [hread]
  dsimp only
  rcases hw : S.WriteTasks (tasks ++ [⟨newID tasks, d, "todo", some now, some now⟩]) s
    with ⟨_ | e, s1⟩ <;> simp [hw]


theorem scanFirst_eq_none_iff (id : Int) (f : Task → Task) (tasks : List Task) :
    scanFirst id f tasks = none ↔ ∀ t ∈ tasks, t.ID ≠ id := by
  induction tasks with
  | nil => simp [scanFirst]
  | cons t rest ih =>
    by_cases h : t.ID = id
    · simp [scanFirst, h]
    · simp [scanFirst, h, ih]

theorem scanFirst_split (id : Int) (f : Task → Task) (tasks : List Task)
    (h : ∃ t ∈ tasks, t.ID = id) :
    ∃ pre t post, tasks = pre ++ t :: post ∧ (∀ u ∈ pre, u.ID ≠ id) ∧ t.ID = id ∧
      scanFirst id f tasks = some (pre ++ f t :: post) := by
  induction tasks with
  | nil => simp at h
  | cons a rest ih =>
    by_cases ha : a.ID = id
    · exact ⟨[], a, rest, rfl, by simp, ha, by simp [scanFirst, ha]⟩
    · have h1 : ∃ t ∈ rest, t.ID = id := by
        obtain ⟨t, ht, hid⟩ := h
        rcases List.mem_cons.1 ht with rfl | ht
        · exact absurd hid ha
        · exact ⟨t, ht, hid⟩
      obtain ⟨pre, t, post, hsplit, hpre, hid, hscan⟩ := ih h1
      refine ⟨a :: pre, t, post, by simp [hsplit], ?_, hid, by simp [scanFirst, ha, hscan]⟩
      intro u hu
      rcases List.mem_cons.1 hu with rfl | hu
      · exact ha
      · exact hpre u hu

theorem deleteLoop_eq (id : Int) (tasks acc : List Task) (found : Bool) :
    deleteLoop id tasks (acc, found) =
      (acc ++ tasks.filter (fun t => decide (t.ID ≠ id)),
        found || tasks.any (fun t => decide (t.ID = id))) := by
  induction tasks generalizing acc found with
  | nil => simp [deleteLoop]
  | cons t rest ih =>
    by_cases h : t.ID = id
    · simp [deleteLoop, h, ih]
    · simp [deleteLoop, h, ih]

theorem listLoop_eq (filter : String) (tasks : List Task) :
    listLoop filter tasks =
      (tasks.filter (fun t => decide (filter = "" ∨ t.Status = filter))).map
        (fun t => t.String ++ "\n") := by
  induction tasks with
  | nil => simp [listLoop]
  | cons t rest ih =>
    by_cases h : filter = "" ∨ t.Status = filter
    · have h1 : ¬ (filter ≠ "" ∧ t.Status ≠ filter) := by tauto
      simp only [listLoop, if_neg h1, ih, List.filter_cons, decide_eq_true h, if_true,
        List.map_cons]
    · have h1 : filter ≠ "" ∧ t.Status ≠ filter := by tauto
      simp only [listLoop, if_pos h1, ih, List.filter_cons, decide_eq_false h]
      simp

theorem scan_write {σ : Type} (S : Storage σ) (s : σ) (tasks tasks1 : List Task) (now : Time)
    (id : Int) (d : String) (hread : S.ReadTasks s = .ok tasks)
    (hscan : scanFirst id (fun t => { t with Description := d, UpdatedAt := some now }) tasks
      = some tasks1) :
    (UpdateTask S now id d s).writes = [tasks1] ∧
    (UpdateTask S now id d s).store = (S.WriteTasks tasks1 s).2 ∧
    ((UpdateTask S now id d s).err = none ↔ (S.WriteTasks tasks1 s).1 = none) := by
  unfold UpdateTask
  rw [hread]
  simp only [hscan]
  rcases hw : S.WriteTasks tasks1 s with ⟨_ | e, s1⟩ <;> simp [hw]

theorem UpdateTask_notFound {σ : Type} (S : Storage σ) (s : σ) (tasks : List Task) (now : Time)
    (id : Int) (d : String) (hread : S.ReadTasks s = .ok tasks)
    (hno : ∀ t ∈ tasks, t.ID ≠ id) :
    UpdateTask S now id d s = ⟨some ("task with ID " ++ fmtD id ++ " not found"), s, [], []⟩ := by
  unfold UpdateTask
  rw [hread]
  simp only [(scanFirst_eq_none_iff id _ tasks).2 hno]

theorem status_write {σ : Type} (S : Storage σ) (s : σ) (tasks tasks1 : List Task) (now : Time)
    (id : Int) (status : String) (hread : S.ReadTasks s = .ok tasks)
    (hscan : scanFirst id (fun t => { t with Status := status, UpdatedAt := some now }) tasks
      = some tasks1) :
    (updateTaskStatus S now id status s).writes = [tasks1] ∧
    (updateTaskStatus S now id status s).store = (S.WriteTasks tasks1 s).2 ∧
    ((updateTaskStatus S now id status s).err = none ↔ (S.WriteTasks tasks1 s).1 = none) := by
  unfold updateTaskStatus
  rw [hread]
  simp only [hscan]
  rcases hw : S.WriteTasks tasks1 s with ⟨_ | e, s1⟩ <;> simp [hw]

theorem updateTaskStatus_notFound {σ : Type} (S : Storage σ) (s : σ) (tasks : List Task)
    (now : Time) (id : Int) (status : String) (hread : S.ReadTasks s = .ok tasks)
    (hno : ∀ t ∈ tasks, t.ID ≠ id) :
    updateTaskStatus S now id status s =
      ⟨some ("task with ID " ++ fmtD id ++ " not found"), s, [], []⟩ := by
  unfold updateTaskStatus
  rw [hread]
  simp only [(scanFirst_eq_none_iff id _ tasks).2 hno]

theorem DeleteTask_notFound {σ : Type} (S : Storage σ) (s : σ) (tasks : List Task)
    (id : Int) (hread : S.ReadTasks s = .ok tasks) (hno : ∀ t ∈ tasks, t.ID ≠ id) :
    DeleteTask S id s = ⟨some ("task with ID " ++ fmtD id ++ " not found"), s, [], []⟩ := by
  have hany : tasks.any (fun t => decide (t.ID = id)) = false := by
    simpa using hno
  unfold DeleteTask
  rw [hread]
  simp only [deleteLoop_eq, hany, Bool.or_false]

theorem DeleteTask_found {σ : Type} (S : Storage σ) (s : σ) (tasks : List Task)
    (id : Int) (hread : S.ReadTasks s = .ok tasks) (hex : ∃ t ∈ tasks, t.ID = id) :
    (DeleteTask S id s).writes = [tasks.filter (fun t => decide (t.ID ≠ id))] ∧
    (DeleteTask S id s).store =
      (S.WriteTasks (tasks.filter (fun t => decide (t.ID ≠ id))) s).2 ∧
    ((DeleteTask S id s).err = none ↔
      (S.WriteTasks (tasks.filter (fun t => decide (t.ID ≠ id))) s).1 = none) := by
  have hany : tasks.any (fun t => decide (t.ID = id)) = true := by
    simpa using hex
  unfold DeleteTask
  rw [hread]
  simp only [deleteLoop_eq, hany, Bool.or_true, List.nil_append]
  rcases hw : S.WriteTasks (tasks.filter (fun t => decide (t.ID ≠ id))) s with ⟨_ | e, s1⟩ <;>
    simp [hw]

/-! ## AddTask: the id and the written collection -/

/-- C1 (as stated, refuted): on the stored collection with ids 5, 2 a successful
`AddTask` gives the new task id 3, while the maximum id present is 5, so the
new id is not the maximum plus 1. -/
theorem AddTask_id_not_max_plus_one :
    (AddTask mockStore t0 "Walk the dog" ⟨[report, dinner], none⟩).err = none ∧
    (AddTask mockStore t0 "Walk the dog" ⟨[report, dinner], none⟩).writes =
      [[report, dinner, ⟨3, "Walk the dog", "todo", some t0, some t0⟩]] ∧
    maxID [report, dinner] = some 5 ∧ (3 : Int) ≠ 5 + 1 := by
  decide

/-- C1 (amended): an `AddTask` that has read the stored collection (so every
successful one) passes to `WriteTasks` that collection followed by a new task
whose id is 1 when the stored collection is empty and otherwise the id of the
last stored task plus 1, in `int64` arithmetic; when the last stored task holds
the maximum id and that id is below the largest `int64`, this is the maximum id
present plus 1. -/
theorem AddTask_id_last_plus_one {σ : Type} (S : Storage σ) (s : σ) (tasks : List Task)
    (now : Time) (d : String) (hread : S.ReadTasks s = .ok tasks) :
    ∃ t : Task, (AddTask S now d s).writes = [tasks ++ [t]] ∧
      (tasks = [] → t.ID = 1) ∧
      (∀ last, tasks.getLast? = some last →
        t.ID = wrapInt64 (last.ID + 1) ∧
        ((∀ u ∈ tasks, u.ID ≤ last.ID) → inInt64 last.ID → last.ID ≠ 2 ^ 63 - 1 →
          maxID tasks = some last.ID ∧ t.ID = last.ID + 1)) := by
  refine ⟨⟨newID tasks, d, "todo", some now, some now⟩, (AddTask_ok S s tasks now d hread).1,
    ?_, ?_⟩
  · rintro rfl
    rfl
  · intro last hlast
    have hnew : newID tasks = wrapInt64 (last.ID + 1) := by simp [newID, hlast]
    refine ⟨hnew, fun hle hrange hmax => ⟨?_, ?_⟩⟩
    · exact maxID_eq_of_le tasks last (List.mem_of_getLast?_eq_some hlast) hle
    · show newID tasks = last.ID + 1
      rw [hnew, wrapInt64_succ_of_lt last.ID hrange hmax]

/-- Witness for C1: the store holding tasks 1 and 2. -/
theorem AddTask_id_last_plus_one_witness :
    ∃ t : Task, (AddTask mockStore t0 "Walk the dog" ⟨[groceries, dinner], none⟩).writes =
        [[groceries, dinner] ++ [t]] ∧
      ([groceries, dinner] = [] → t.ID = 1) ∧
      (∀ last, [groceries, dinner].getLast? = some last →
        t.ID = wrapInt64 (last.ID + 1) ∧
        ((∀ u ∈ [groceries, dinner], u.ID ≤ last.ID) → inInt64 last.ID →
          last.ID ≠ 2 ^ 63 - 1 →
          maxID [groceries, dinner] = some last.ID ∧ t.ID = last.ID + 1)) :=
  AddTask_id_last_plus_one mockStore ⟨[groceries, dinner], none⟩ [groceries, dinner] t0
    "Walk the dog" rfl

/-- C10: a successful `AddTask(description)` at time `now` makes one write, of the
stored collection unchanged and in order followed by one new last task with the
given description, status "todo", and `createdAt` and `updatedAt` both `now`;
the store it leaves is the one that write produced. -/
theorem AddTask_appends {σ : Type} (S : Storage σ) (s : σ) (tasks : List Task)
    (now : Time) (d : String) (hread : S.ReadTasks s = .ok tasks)
    (hok : (AddTask S now d s).err = none) :
    ∃ id : Int,
      (AddTask S now d s).writes = [tasks ++ [⟨id, d, "todo", some now, some now⟩]] ∧
      (AddTask S now d s).store =
        (S.WriteTasks (tasks ++ [⟨id, d, "todo", some now, some now⟩]) s).2 ∧
      (S.WriteTasks (tasks ++ [⟨id, d, "todo", some now, some now⟩]) s).1 = none :=
  ⟨newID tasks, (AddTask_ok S s tasks now d hread).1, (AddTask_ok S s tasks now d hread).2.1,
    (AddTask_ok S s tasks now d hread).2.2.1 hok⟩

/-- Witness for C10: adding to the store holding tasks 1 and 2. -/
theorem AddTask_appends_witness :
    ∃ id : Int,
      (AddTask mockStore t0 "Walk the dog" ⟨[groceries, dinner], none⟩).writes =
        [[groceries, dinner] ++ [⟨id, "Walk the dog", "todo", some t0, some t0⟩]] ∧
      (AddTask mockStore t0 "Walk the dog" ⟨[groceries, dinner], none⟩).store =
        (mockStore.WriteTasks
          ([groceries, dinner] ++ [⟨id, "Walk the dog", "todo", some t0, some t0⟩])
          ⟨[groceries, dinner], none⟩).2 ∧
      (mockStore.WriteTasks
          ([groceries, dinner] ++ [⟨id, "Walk the dog", "todo", some t0, some t0⟩])
          ⟨[groceries, dinner], none⟩).1 = none :=
  AddTask_appends mockStore ⟨[groceries, dinner], none⟩ [groceries, dinner] t0
    "Walk the dog" rfl (by decide)

theorem scanFirst_append (id : Int) (f : Task → Task) (pre : List Task) (t : Task)
    (post : List Task) (hpre : ∀ u ∈ pre, u.ID ≠ id) (hid : t.ID = id) :
    scanFirst id f (pre ++ t :: post) = some (pre ++ f t :: post) := by
  induction pre with
  | nil => simp [scanFirst, hid]
  | cons a pre ih =>
    have ha : a.ID ≠ id := hpre a (List.mem_cons_self _ _)
    have ih1 := ih (fun u hu => hpre u (List.mem_cons_of_mem _ hu))
    simp [scanFirst, ha, ih1]

/-! ## DeleteTask -/

theorem filter_ne_of_unique (id : Int) (tasks : List Task)
    (h : tasks.countP (fun t => decide (t.ID = id)) = 1) :
    ∃ pre t post, tasks = pre ++ t :: post ∧ t.ID = id ∧
      (∀ u ∈ pre, u.ID ≠ id) ∧ (∀ u ∈ post, u.ID ≠ id) ∧
      tasks.filter (fun t => decide (t.ID ≠ id)) = pre ++ post := by
  induction tasks with
  | nil => simp at h
  | cons a rest ih =>
    by_cases ha : a.ID = id
    · have hrest : rest.countP (fun t => decide (t.ID = id)) = 0 := by
        rw [List.countP_cons_of_pos _ _ (by simpa using ha)] at h
        omega
      have hnone : ∀ u ∈ rest, u.ID ≠ id := by
        simpa [List.countP_eq_zero] using hrest
      refine ⟨[], a, rest, rfl, ha, by simp, hnone, ?_⟩
      rw [List.filter_cons_of_neg (by simpa using ha), List.nil_append]
      exact List.filter_eq_self.2 (by simpa using hnone)
    · rw [List.countP_cons_of_neg _ _ (by simpa using ha)] at h
      obtain ⟨pre, t, post, hsplit, hid, hpre, hpost, hfilter⟩ := ih h
      refine ⟨a :: pre, t, post, by simp [hsplit], hid, ?_, hpost, ?_⟩
      · intro u hu
        rcases List.mem_cons.1 hu with rfl | hu
        · exact ha
        · exact hpre u hu
      · rw [List.filter_cons_of_pos (by simpa using ha), hfilter, List.cons_append]

/-- C3 (as stated, refuted): the stored collection holds two tasks with id 1;
`DeleteTask(1)` succeeds and writes the empty collection, whose length 0 is not
the old length 2 minus 1. -/
theorem DeleteTask_removes_two :
    (DeleteTask mockStore 1 ⟨[groceries, laundry], none⟩).err = none ∧
    (DeleteTask mockStore 1 ⟨[groceries, laundry], none⟩).writes = [[]] ∧
    ([] : List Task).length ≠ [groceries, laundry].length - 1 := by
  decide

/-- C3 (amended): for every stored collection that contains a task with the given
id, `DeleteTask(id)` passes to `WriteTasks` the stored collection without the
tasks of that id, the others kept as they are and in order, and succeeds when
that write does; when exactly one stored task has the id, exactly that task is
removed and the length decreases by exactly 1. -/
theorem DeleteTask_removes_matching {σ : Type} (S : Storage σ) (s : σ) (tasks : List Task)
    (id : Int) (hread : S.ReadTasks s = .ok tasks) (hex : ∃ t ∈ tasks, t.ID = id)
    (hwrite : ∀ ts, (S.WriteTasks ts s).1 = none) :
    (DeleteTask S id s).err = none ∧
    (DeleteTask S id s).writes = [tasks.filter (fun t => decide (t.ID ≠ id))] ∧
    (tasks.countP (fun t => decide (t.ID = id)) = 1 →
      ∃ pre t post, tasks = pre ++ t :: post ∧ t.ID = id ∧
        (∀ u ∈ pre ++ post, u.ID ≠ id) ∧
        (DeleteTask S id s).writes = [pre ++ post] ∧
        (pre ++ post).length = tasks.length - 1) := by
  obtain ⟨hw, _, herr⟩ := DeleteTask_found S s tasks id hread hex
  refine ⟨herr.2 (hwrite _), hw, fun huniq => ?_⟩
  obtain ⟨pre, t, post, hsplit, hid, hpre, hpost, hfilter⟩ := filter_ne_of_unique id tasks huniq
  refine ⟨pre, t, post, hsplit, hid, ?_, by rw [hw, hfilter], by simp [hsplit]⟩
  intro u hu
  rcases List.mem_append.1 hu with h | h
  · exact hpre u h
  · exact hpost u h

/-- Witness for C3: deleting id 2 from tasks 1, 2, 5. -/
theorem DeleteTask_removes_matching_witness :
    (DeleteTask mockStore 2 ⟨[groceries, dinner, report], none⟩).err = none ∧
    (DeleteTask mockStore 2 ⟨[groceries, dinner, report], none⟩).writes =
      [[groceries, dinner, report].filter (fun t => decide (t.ID ≠ 2))] ∧
    (∃ pre t post, [groceries, dinner, report] = pre ++ t :: post ∧ t.ID = 2 ∧
        (∀ u ∈ pre ++ post, u.ID ≠ 2) ∧
        (DeleteTask mockStore 2 ⟨[groceries, dinner, report], none⟩).writes = [pre ++ post] ∧
        (pre ++ post).length = [groceries, dinner, report].length - 1) :=
  have h := DeleteTask_removes_matching mockStore ⟨[groceries, dinner, report], none⟩
    [groceries, dinner, report] 2 rfl ⟨dinner, by decide, rfl⟩ (fun _ => rfl)
  ⟨h.1, h.2.1, h.2.2 (by decide)⟩

/-- C5: for every stored collection, the empty one included, and every id that no
stored task has, `DeleteTask(id)` returns the error "task with ID <id> not found",
calls `WriteTasks` not at all and leaves the store as it was; and on a storage
that reads back what was written, a `DeleteTask(id)` following a successful
`DeleteTask(id)` fails in this way. -/
theorem DeleteTask_missing_id {σ : Type} (S : Storage σ) (s : σ) (tasks : List Task)
    (id : Int) (hread : S.ReadTasks s = .ok tasks) :
    ((∀ t ∈ tasks, t.ID ≠ id) →
      DeleteTask S id s = ⟨some ("task with ID " ++ fmtD id ++ " not found"), s, [], []⟩) ∧
    ((∀ ts, (S.WriteTasks ts s).1 = none → S.ReadTasks (S.WriteTasks ts s).2 = .ok ts) →
      (DeleteTask S id s).err = none →
      DeleteTask S id (DeleteTask S id s).store =
        ⟨some ("task with ID " ++ fmtD id ++ " not found"), (DeleteTask S id s).store, [], []⟩) := by
  refine ⟨DeleteTask_notFound S s tasks id hread, fun hback hok => ?_⟩
  by_cases hex : ∃ t ∈ tasks, t.ID = id
  · obtain ⟨_, hstore, herr⟩ := DeleteTask_found S s tasks id hread hex
    have hread2 := hback _ (herr.1 hok)
    rw [← hstore] at hread2
    refine DeleteTask_notFound S _ _ id hread2 ?_
    intro t ht
    simpa using (List.mem_filter.1 ht).2
  · have hno : ∀ t ∈ tasks, t.ID ≠ id := fun t ht h => hex ⟨t, ht, h⟩
    rw [DeleteTask_notFound S s tasks id hread hno] at hok
    simp at hok

/-- Witness for C5: the store holding task 1 only, as in
`TestDeleteTask`: deleting id 7 fails, and so does deleting id 1 a second time. -/
theorem DeleteTask_missing_id_witness :
    DeleteTask mockStore 7 ⟨[groceries], none⟩ =
      ⟨some ("task with ID " ++ fmtD 7 ++ " not found"), ⟨[groceries], none⟩, [], []⟩ ∧
    DeleteTask mockStore 1 (DeleteTask mockStore 1 ⟨[groceries], none⟩).store =
      ⟨some ("task with ID " ++ fmtD 1 ++ " not found"),
        (DeleteTask mockStore 1 ⟨[groceries], none⟩).store, [], []⟩ :=
  ⟨(DeleteTask_missing_id mockStore ⟨[groceries], none⟩ [groceries] 7 rfl).1 (by decide),
    (DeleteTask_missing_id mockStore ⟨[groceries], none⟩ [groceries] 1 rfl).2
      (fun _ _ => rfl) (by decide)⟩

/-! ## UpdateTask and the status changes -/

/-- C4: for every stored collection and every id that no stored task has,
`UpdateTask(id, d)`, `MarkTaskTodo(id)`, `MarkTaskInProgress(id)` and
`MarkTaskDone(id)` return the error "task with ID <id> not found", make no call
of `WriteTasks`, print nothing and leave the store as it was. -/
theorem notFound_leaves_store {σ : Type} (S : Storage σ) (s : σ) (tasks : List Task)
    (now : Time) (id : Int) (d : String) (hread : S.ReadTasks s = .ok tasks)
    (hno : ∀ t ∈ tasks, t.ID ≠ id) :
    UpdateTask S now id d s =
      ⟨some ("task with ID " ++ fmtD id ++ " not found"), s, [], []⟩ ∧
    MarkTaskTodo S now id s =
      ⟨some ("task with ID " ++ fmtD id ++ " not found"), s, [], []⟩ ∧
    MarkTaskInProgress S now id s =
      ⟨some ("task with ID " ++ fmtD id ++ " not found"), s, [], []⟩ ∧
    MarkTaskDone S now id s =
      ⟨some ("task with ID " ++ fmtD id ++ " not found"), s, [], []⟩ :=
  ⟨UpdateTask_notFound S s tasks now id d hread hno,
    updateTaskStatus_notFound S s tasks now id "todo" hread hno,
    updateTaskStatus_notFound S s tasks now id "in-progress" hread hno,
    updateTaskStatus_notFound S s tasks now id "done" hread hno⟩

/-- Witness for C4: id 2 on the store holding task 1 only, as
in `TestUpdateTask`. -/
theorem notFound_leaves_store_witness :
    UpdateTask mockStore t1 2 "Non-existent check" ⟨[groceries], none⟩ =
      ⟨some "task with ID 2 not found", ⟨[groceries], none⟩, [], []⟩ ∧
    MarkTaskTodo mockStore t1 2 ⟨[groceries], none⟩ =
      ⟨some "task with ID 2 not found", ⟨[groceries], none⟩, [], []⟩ ∧
    MarkTaskInProgress mockStore t1 2 ⟨[groceries], none⟩ =
      ⟨some "task with ID 2 not found", ⟨[groceries], none⟩, [], []⟩ ∧
    MarkTaskDone mockStore t1 2 ⟨[groceries], none⟩ =
      ⟨some "task with ID 2 not found", ⟨[groceries], none⟩, [], []⟩ :=
  notFound_leaves_store mockStore ⟨[groceries], none⟩ [groceries] t1 2 "Non-existent check"
    rfl (by decide)

/-- C7: for every stored collection containing a task with the given id, a
successful `UpdateTask(id, d)` makes one write, of a collection of the same
length and order in which the first task with that id has description `d`, the
time of the call as `updatedAt` and its id, status and `createdAt` unchanged,
and every other task, a later one with the same id included, is as before. -/
theorem UpdateTask_first_match {σ : Type} (S : Storage σ) (s : σ) (tasks : List Task)
    (now : Time) (id : Int) (d : String) (hread : S.ReadTasks s = .ok tasks)
    (hex : ∃ t ∈ tasks, t.ID = id) (hok : (UpdateTask S now id d s).err = none) :
    ∃ pre t post, tasks = pre ++ t :: post ∧ (∀ u ∈ pre, u.ID ≠ id) ∧ t.ID = id ∧
      (UpdateTask S now id d s).writes =
        [pre ++ ⟨t.ID, d, t.Status, t.CreatedAt, some now⟩ :: post] ∧
      (pre ++ (⟨t.ID, d, t.Status, t.CreatedAt, some now⟩ : Task) :: post).length =
        tasks.length ∧
      (UpdateTask S now id d s).store =
        (S.WriteTasks (pre ++ ⟨t.ID, d, t.Status, t.CreatedAt, some now⟩ :: post) s).2 ∧
      (S.WriteTasks (pre ++ ⟨t.ID, d, t.Status, t.CreatedAt, some now⟩ :: post) s).1 = none := by
  obtain ⟨pre, t, post, hsplit, hpre, hid, hscan⟩ :=
    scanFirst_split id (fun t => { t with Description := d, UpdatedAt := some now }) tasks hex
  obtain ⟨hw, hstore, herr⟩ := scan_write S s tasks _ now id d hread hscan
  exact ⟨pre, t, post, hsplit, hpre, hid, hw, by simp [hsplit], hstore, herr.1 hok⟩

/-- Witness for C7: id 1 on a store holding two tasks with id 1. -/
theorem UpdateTask_first_match_witness :
    ∃ pre t post, [groceries, laundry] = pre ++ t :: post ∧ (∀ u ∈ pre, u.ID ≠ 1) ∧
      t.ID = 1 ∧
      (UpdateTask mockStore t1 1 "Buy groceries and cook dinner"
          ⟨[groceries, laundry], none⟩).writes =
        [pre ++ ⟨t.ID, "Buy groceries and cook dinner", t.Status, t.CreatedAt, some t1⟩ ::
          post] ∧
      (pre ++ (⟨t.ID, "Buy groceries and cook dinner", t.Status, t.CreatedAt, some t1⟩ : Task)
          :: post).length = [groceries, laundry].length ∧
      (UpdateTask mockStore t1 1 "Buy groceries and cook dinner"
          ⟨[groceries, laundry], none⟩).store =
        (mockStore.WriteTasks
          (pre ++ ⟨t.ID, "Buy groceries and cook dinner", t.Status, t.CreatedAt, some t1⟩ ::
            post) ⟨[groceries, laundry], none⟩).2 ∧
      (mockStore.WriteTasks
          (pre ++ ⟨t.ID, "Buy groceries and cook dinner", t.Status, t.CreatedAt, some t1⟩ ::
            post) ⟨[groceries, laundry], none⟩).1 = none :=
  UpdateTask_first_match mockStore ⟨[groceries, laundry], none⟩ [groceries, laundry] t1 1
    "Buy groceries and cook dinner" rfl ⟨groceries, by decide, rfl⟩ (by decide)

/-- C8: for every stored collection containing a task with the given id, on a
store whose writes succeed, `MarkTaskTodo(id)`, `MarkTaskInProgress(id)` and
`MarkTaskDone(id)` succeed and make one write, of the stored collection in which
the first task with that id has status "todo", "in-progress" and "done"
respectively (whatever it was), its id, description and `createdAt` unchanged,
and every other task is as before. -/
theorem mark_sets_status {σ : Type} (S : Storage σ) (s : σ) (tasks : List Task)
    (now : Time) (id : Int) (hread : S.ReadTasks s = .ok tasks)
    (hex : ∃ t ∈ tasks, t.ID = id) (hwrite : ∀ ts, (S.WriteTasks ts s).1 = none) :
    ∃ pre t post, tasks = pre ++ t :: post ∧ (∀ u ∈ pre, u.ID ≠ id) ∧ t.ID = id ∧
      (MarkTaskTodo S now id s).err = none ∧
      (MarkTaskTodo S now id s).writes =
        [pre ++ ⟨t.ID, t.Description, "todo", t.CreatedAt, some now⟩ :: post] ∧
      (MarkTaskInProgress S now id s).err = none ∧
      (MarkTaskInProgress S now id s).writes =
        [pre ++ ⟨t.ID, t.Description, "in-progress", t.CreatedAt, some now⟩ :: post] ∧
      (MarkTaskDone S now id s).err = none ∧
      (MarkTaskDone S now id s).writes =
        [pre ++ ⟨t.ID, t.Description, "done", t.CreatedAt, some now⟩ :: post] := by
  obtain ⟨pre, t, post, hsplit, hpre, hid, -⟩ := scanFirst_split id (fun t => t) tasks hex
  have key : ∀ status : String,
      (updateTaskStatus S now id status s).err = none ∧
      (updateTaskStatus S now id status s).writes =
        [pre ++ ⟨t.ID, t.Description, status, t.CreatedAt, some now⟩ :: post] := by
    intro status
    have hscan := scanFirst_append id
      (fun t => { t with Status := status, UpdatedAt := some now }) pre t post hpre hid
    rw [← hsplit] at hscan
    obtain ⟨hw, _, herr⟩ := status_write S s tasks _ now id status hread hscan
    exact ⟨herr.2 (hwrite _), hw⟩
  exact ⟨pre, t, post, hsplit, hpre, hid, (key "todo").1, (key "todo").2,
    (key "in-progress").1, (key "in-progress").2, (key "done").1, (key "done").2⟩

/-- Witness for C8: id 2 on the store holding tasks 1 and 2. -/
theorem mark_sets_status_witness :
    ∃ pre t post, [groceries, dinner] = pre ++ t :: post ∧ (∀ u ∈ pre, u.ID ≠ 2) ∧ t.ID = 2 ∧
      (MarkTaskTodo mockStore t1 2 ⟨[groceries, dinner], none⟩).err = none ∧
      (MarkTaskTodo mockStore t1 2 ⟨[groceries, dinner], none⟩).writes =
        [pre ++ ⟨t.ID, t.Description, "todo", t.CreatedAt, some t1⟩ :: post] ∧
      (MarkTaskInProgress mockStore t1 2 ⟨[groceries, dinner], none⟩).err = none ∧
      (MarkTaskInProgress mockStore t1 2 ⟨[groceries, dinner], none⟩).writes =
        [pre ++ ⟨t.ID, t.Description, "in-progress", t.CreatedAt, some t1⟩ :: post] ∧
      (MarkTaskDone mockStore t1 2 ⟨[groceries, dinner], none⟩).err = none ∧
      (MarkTaskDone mockStore t1 2 ⟨[groceries, dinner], none⟩).writes =
        [pre ++ ⟨t.ID, t.Description, "done", t.CreatedAt, some t1⟩ :: post] :=
  mark_sets_status mockStore ⟨[groceries, dinner], none⟩ [groceries, dinner] t1 2 rfl
    ⟨dinner, by decide, rfl⟩ (fun _ => rfl)

/-! ## ListTasks -/

/-- C6: for every non-empty stored collection and every filter string,
`ListTasks(filter)` succeeds without writing and prints one line per task, in
stored order, for exactly the tasks whose status equals the filter; with the
empty filter it prints one line for every task, in stored order. -/
theorem ListTasks_emits {σ : Type} (S : Storage σ) (s : σ) (tasks : List Task)
    (filter : String) (hread : S.ReadTasks s = .ok tasks) (hne : tasks ≠ []) :
    (ListTasks S filter s).err = none ∧ (ListTasks S filter s).writes = [] ∧
    (ListTasks S filter s).store = s ∧
    (filter ≠ "" → (ListTasks S filter s).stdout =
      (tasks.filter (fun t => decide (t.Status = filter))).map (fun t => t.String ++ "\n")) ∧
    (filter = "" → (ListTasks S filter s).stdout = tasks.map (fun t => t.String ++ "\n")) := by
  have hlen : tasks.length ≠ 0 := by simpa using hne
  unfold ListTasks
  rw [hread]
  simp only [if_neg hlen, listLoop_eq, true_and]
  constructor
  · intro hf
    simp [hf]
  · intro hf
    simp [hf]

/-- Witness for C6: the filter "in-progress" on the store holding
tasks 1 ("todo") and 2 ("in-progress"). -/
theorem ListTasks_emits_witness :
    (ListTasks mockStore "in-progress" ⟨[groceries, dinner], none⟩).err = none ∧
    (ListTasks mockStore "in-progress" ⟨[groceries, dinner], none⟩).writes = [] ∧
    (ListTasks mockStore "in-progress" ⟨[groceries, dinner], none⟩).store =
      ⟨[groceries, dinner], none⟩ ∧
    ("in-progress" ≠ "" →
      (ListTasks mockStore "in-progress" ⟨[groceries, dinner], none⟩).stdout =
      ([groceries, dinner].filter (fun t => decide (t.Status = "in-progress"))).map
        (fun t => t.String ++ "\n")) ∧
    ("in-progress" = "" →
      (ListTasks mockStore "in-progress" ⟨[groceries, dinner], none⟩).stdout =
      [groceries, dinner].map (fun t => t.String ++ "\n")) :=
  ListTasks_emits mockStore ⟨[groceries, dinner], none⟩ [groceries, dinner] "in-progress" rfl
    (by decide)

/-! ## Sequences of calls from the empty store -/

theorem run_nil {σ : Type} (S : Storage σ) (s : σ) : run S [] s = s := rfl

theorem run_cons {σ : Type} (S : Storage σ) (op : Op) (ops : List Op) (s : σ) :
    run S (op :: ops) s = run S ops (op.apply S s).store := rfl

theorem apply_add {σ : Type} (S : Storage σ) (d : String) (now : Time) (s : σ) :
    (Op.add d now).apply S s = AddTask S now d s := rfl

theorem apply_delete {σ : Type} (S : Storage σ) (id : Int) (s : σ) :
    (Op.delete id).apply S s = DeleteTask S id s := rfl

theorem run_append {σ : Type} (S : Storage σ) (a b : List Op) (s : σ) :
    run S (a ++ b) s = run S b (run S a s) := by
  induction a generalizing s with
  | nil => rfl
  | cons op a ih => simp [run, ih]

theorem mock_failing (op : Op) (tasks : List Task) (e : String) :
    (op.apply mockStore ⟨tasks, some e⟩).store = ⟨tasks, some e⟩ := by
  cases op <;> rfl

theorem mock_add (tasks : List Task) (now : Time) (d : String) :
    AddTask mockStore now d ⟨tasks, none⟩ =
      ⟨none, ⟨tasks ++ [⟨newID tasks, d, "todo", some now, some now⟩], none⟩,
        [tasks ++ [⟨newID tasks, d, "todo", some now, some now⟩]],
        ["Task added successfully (ID: " ++ fmtD (newID tasks) ++ ")\n"]⟩ := rfl

theorem mock_delete (tasks : List Task) (id : Int) :
    (DeleteTask mockStore id ⟨tasks, none⟩).store = ⟨tasks, none⟩ ∨
    (DeleteTask mockStore id ⟨tasks, none⟩).store =
      ⟨tasks.filter (fun t => decide (t.ID ≠ id)), none⟩ := by
  by_cases hex : ∃ t ∈ tasks, t.ID = id
  · right
    rw [(DeleteTask_found mockStore ⟨tasks, none⟩ tasks id rfl hex).2.1]
    rfl
  · left
    rw [DeleteTask_notFound mockStore ⟨tasks, none⟩ tasks id rfl
      (fun t ht h => hex ⟨t, ht, h⟩)]

theorem scanFirst_ids (id : Int) (f : Task → Task) (hf : ∀ t, (f t).ID = t.ID)
    (tasks tasks1 : List Task) (h : scanFirst id f tasks = some tasks1) :
    ids tasks1 = ids tasks := by
  induction tasks generalizing tasks1 with
  | nil => simp [scanFirst] at h
  | cons a rest ih =>
    by_cases ha : a.ID = id
    · simp only [scanFirst, if_pos ha, Option.some.injEq] at h
      subst h
      simp [ids, hf]
    · simp only [scanFirst, if_neg ha, Option.map_eq_some'] at h
      obtain ⟨r, hr, rfl⟩ := h
      have := ih r hr
      simp only [ids] at this
      simp [ids, this]

theorem mock_update (tasks : List Task) (now : Time) (id : Int) (d : String) :
    ∃ tasks1, (UpdateTask mockStore now id d ⟨tasks, none⟩).store = ⟨tasks1, none⟩ ∧
      ids tasks1 = ids tasks := by
  rcases hscan : scanFirst id
      (fun t => { t with Description := d, UpdatedAt := some now }) tasks with _ | tasks1
  · refine ⟨tasks, ?_, rfl⟩
    rw [UpdateTask_notFound mockStore ⟨tasks, none⟩ tasks now id d rfl
      ((scanFirst_eq_none_iff id _ tasks).1 hscan)]
  · refine ⟨tasks1, ?_, scanFirst_ids id _ (by intro t; rfl) tasks tasks1 hscan⟩
    rw [(scan_write mockStore ⟨tasks, none⟩ tasks tasks1 now id d rfl hscan).2.1]
    rfl

theorem mock_status (tasks : List Task) (now : Time) (id : Int) (status : String) :
    ∃ tasks1, (updateTaskStatus mockStore now id status ⟨tasks, none⟩).store = ⟨tasks1, none⟩ ∧
      ids tasks1 = ids tasks := by
  rcases hscan : scanFirst id
      (fun t => { t with Status := status, UpdatedAt := some now }) tasks with _ | tasks1
  · refine ⟨tasks, ?_, rfl⟩
    rw [updateTaskStatus_notFound mockStore ⟨tasks, none⟩ tasks now id status rfl
      ((scanFirst_eq_none_iff id _ tasks).1 hscan)]
  · refine ⟨tasks1, ?_, scanFirst_ids id _ (by intro t; rfl) tasks tasks1 hscan⟩
    rw [(status_write mockStore ⟨tasks, none⟩ tasks tasks1 now id status rfl hscan).2.1]
    rfl

theorem IdsOrdered.mono {n m : Nat} {l : List Int} (h : IdsOrdered n l) (hnm : n ≤ m) :
    IdsOrdered m l :=
  ⟨h.1, fun x hx => lt_of_lt_of_le (h.2 x hx) (by exact_mod_cast hnm)⟩

theorem IdsOrdered.sublist {n : Nat} {l l1 : List Int} (h : IdsOrdered n l)
    (hsub : l1.Sublist l) : IdsOrdered n l1 :=
  ⟨h.1.sublist (hsub.map offset), fun x hx => h.2 x (hsub.subset hx)⟩

theorem IdsOrdered.nodup {n : Nat} {l : List Int} (h : IdsOrdered n l) : l.Nodup := by
  have h1 : (l.map offset).Nodup := h.1.imp (fun hab => ne_of_lt hab)
  exact List.Nodup.of_map offset h1

theorem newID_ids (tasks : List Task) :
    newID tasks = match (ids tasks).getLast? with
      | some x => wrapInt64 (x + 1)
      | none => 1 := by
  unfold newID ids
  rw [List.getLast?_map]
  cases tasks.getLast? <;> rfl

theorem offset_newID {n : Nat} (tasks : List Task) (h : IdsOrdered n (ids tasks))
    (hn : n < 2 ^ 64) :
    offset (newID tasks) < (n : Int) + 1 ∧ ∀ x ∈ ids tasks, offset x < offset (newID tasks) := by
  rw [newID_ids]
  rcases List.eq_nil_or_concat (ids tasks) with hnil | ⟨init, x, hl⟩
  · rw [hnil]
    refine ⟨?_, by simp⟩
    simp only [List.getLast?_nil, offset]
    omega
  · rw [List.concat_eq_append] at hl
    rw [hl] at h ⊢
    have hlast : (init ++ [x]).getLast? = some x := by simp
    simp only [hlast]
    obtain ⟨hpair, hbound⟩ := h
    have hx : offset x < (n : Int) := hbound x (by simp)
    have hn1 : (n : Int) < 2 ^ 64 := by exact_mod_cast hn
    have hstep : offset (wrapInt64 (x + 1)) = offset x + 1 := by
      unfold offset wrapInt64 at *
      omega
    refine ⟨by omega, ?_⟩
    intro y hy
    rcases List.mem_append.1 hy with hy | hy
    · rw [List.map_append, List.pairwise_append] at hpair
      have := hpair.2.2 (offset y) (List.mem_map_of_mem _ hy) (offset x) (by simp)
      omega
    · simp only [List.mem_singleton] at hy
      subst hy
      omega

theorem IdsOrdered.add {n : Nat} (tasks : List Task) (t : Task)
    (h : IdsOrdered n (ids tasks)) (hn : n < 2 ^ 64) (ht : t.ID = newID tasks) :
    IdsOrdered (n + 1) (ids (tasks ++ [t])) := by
  obtain ⟨hlt, hall⟩ := offset_newID tasks h hn
  have hids : ids (tasks ++ [t]) = ids tasks ++ [newID tasks] := by simp [ids, ht]
  rw [hids]
  constructor
  · rw [List.map_append, List.pairwise_append]
    refine ⟨h.1, by simp, ?_⟩
    intro a ha b hb
    obtain ⟨x, hx, rfl⟩ := List.mem_map.1 ha
    simp only [List.map_cons, List.map_nil, List.mem_singleton] at hb
    subst hb
    exact hall x hx
  · intro x hx
    rcases List.mem_append.1 hx with hx | hx
    · have := h.2 x hx
      push_cast
      omega
    · simp only [List.mem_singleton] at hx
      subst hx
      push_cast
      exact hlt

theorem run_ordered (ops : List Op) (tasks : List Task) (n : Nat)
    (h : IdsOrdered n (ids tasks)) (hn : n + ops.countP Op.isAdd ≤ 2 ^ 64) :
    IdsOrdered (n + ops.countP Op.isAdd) (ids (run mockStore ops ⟨tasks, none⟩).tasks) ∧
    (run mockStore ops ⟨tasks, none⟩).err = none := by
  induction ops generalizing tasks n with
  | nil => exact ⟨by simpa [run] using h, rfl⟩
  | cons op ops ih =>
    cases op with
    | add d now =>
      have hc : (Op.add d now :: ops).countP Op.isAdd = ops.countP Op.isAdd + 1 := by
        simp [Op.isAdd]
      rw [hc] at hn ⊢
      have hstep := IdsOrdered.add tasks ⟨newID tasks, d, "todo", some now, some now⟩ h
        (by omega) rfl
      have := ih _ (n + 1) hstep (by omega)
      simp only [run, Op.apply, mock_add]
      rw [show n + (ops.countP Op.isAdd + 1) = n + 1 + ops.countP Op.isAdd by omega]
      exact this
    | update id d now =>
      have hc : (Op.update id d now :: ops).countP Op.isAdd = ops.countP Op.isAdd := by
        simp [Op.isAdd]
      rw [hc] at hn ⊢
      obtain ⟨tasks1, hstore, hids⟩ := mock_update tasks now id d
      simp only [run, Op.apply, hstore]
      exact ih tasks1 n (hids ▸ h) hn
    | delete id =>
      have hc : (Op.delete id :: ops).countP Op.isAdd = ops.countP Op.isAdd := by
        simp [Op.isAdd]
      rw [hc] at hn ⊢
      rcases mock_delete tasks id with hstore | hstore
      · simp only [run, Op.apply, hstore]
        exact ih tasks n h hn
      · simp only [run, Op.apply, hstore]
        exact ih _ n (h.sublist ((List.filter_sublist _).map Task.ID)) hn
    | markTodo id now =>
      have hc : (Op.markTodo id now :: ops).countP Op.isAdd = ops.countP Op.isAdd := by
        simp [Op.isAdd]
      rw [hc] at hn ⊢
      obtain ⟨tasks1, hstore, hids⟩ := mock_status tasks now id "todo"
      simp only [run, Op.apply, MarkTaskTodo, hstore]
      exact ih tasks1 n (hids ▸ h) hn
    | markInProgress id now =>
      have hc : (Op.markInProgress id now :: ops).countP Op.isAdd = ops.countP Op.isAdd := by
        simp [Op.isAdd]
      rw [hc] at hn ⊢
      obtain ⟨tasks1, hstore, hids⟩ := mock_status tasks now id "in-progress"
      simp only [run, Op.apply, MarkTaskInProgress, hstore]
      exact ih tasks1 n (hids ▸ h) hn
    | markDone id now =>
      have hc : (Op.markDone id now :: ops).countP Op.isAdd = ops.countP Op.isAdd := by
        simp [Op.isAdd]
      rw [hc] at hn ⊢
      obtain ⟨tasks1, hstore, hids⟩ := mock_status tasks now id "done"
      simp only [run, Op.apply, MarkTaskDone, hstore]
      exact ih tasks1 n (hids ▸ h) hn

theorem run_failing (ops : List Op) (tasks : List Task) (e : String) :
    run mockStore ops ⟨tasks, some e⟩ = ⟨tasks, some e⟩ := by
  induction ops with
  | nil => rfl
  | cons op ops ih => simp only [run, mock_failing, ih]

theorem mock_delete_found (tasks : List Task) (id : Int) (hex : ∃ t ∈ tasks, t.ID = id) :
    (DeleteTask mockStore id ⟨tasks, none⟩).store =
      ⟨tasks.filter (fun t => decide (t.ID ≠ id)), none⟩ := by
  rw [(DeleteTask_found mockStore ⟨tasks, none⟩ tasks id rfl hex).2.1]
  rfl

theorem run_churn (n : Nat) (hn : n ≤ 2 ^ 64 - 2) :
    run mockStore (churn n) (emptyStore none) =
      ⟨[blank 1, blank (wrapInt64 ((n : Int) + 2))], none⟩ := by
  induction n with
  | zero => decide
  | succ n ih =>
    have hk1 : wrapInt64 ((n : Int) + 2) ≠ 1 := by
      unfold wrapInt64
      omega
    have hk2 : wrapInt64 (wrapInt64 ((n : Int) + 2) + 1) ≠ wrapInt64 ((n : Int) + 2) := by
      unfold wrapInt64
      omega
    have hk3 : wrapInt64 (wrapInt64 ((n : Int) + 2) + 1) = wrapInt64 (((n + 1 : Nat) : Int) + 2) := by
      unfold wrapInt64
      push_cast
      omega
    have hnew : newID [blank 1, blank (wrapInt64 ((n : Int) + 2))] =
        wrapInt64 (wrapInt64 ((n : Int) + 2) + 1) := by
      simp [newID, blank]
    rw [churn, run_append, ih (by omega)]
    rw [run_cons, run_cons, run_nil, apply_add, apply_delete, mock_add, hnew]
    simp only []
    rw [mock_delete_found _ (wrapInt64 ((n : Int) + 2))
      ⟨blank (wrapInt64 ((n : Int) + 2)), by simp, rfl⟩]
    rw [← hk3]
    simp [blank, hk1, hk2, Ne.symm hk1]

/-- C2 (as stated, refuted): from the empty store, `AddTask`, `DeleteTask(1)`,
`AddTask` assigns the id 1 twice: the second `AddTask` reuses the id of the
task deleted in between. -/
theorem id_reused_after_delete :
    assignedIDs mockStore
      [Op.add "Buy groceries" t0, Op.delete 1, Op.add "Cook dinner" t1] (emptyStore none) =
      [1, 1] ∧
    ¬ (assignedIDs mockStore
      [Op.add "Buy groceries" t0, Op.delete 1, Op.add "Cook dinner" t1]
      (emptyStore none)).Nodup := by
  decide

/-- C2 (amended): in the store reached from the empty store by any sequence of
`TaskManager` calls holding fewer than 2^64 `AddTask`, a successful `AddTask`
appends a task whose id differs from the id of every task stored at that time,
that is, from the id given by every earlier `AddTask` whose task has not been
deleted since; the id of a deleted task can be given again. -/
theorem AddTask_id_not_stored (ops : List Op) (e : Option String) (now : Time) (d : String)
    (hn : ops.countP Op.isAdd < 2 ^ 64)
    (hok : (AddTask mockStore now d (run mockStore ops (emptyStore e))).err = none) :
    ∃ t : Task,
      (AddTask mockStore now d (run mockStore ops (emptyStore e))).store.tasks =
        (run mockStore ops (emptyStore e)).tasks ++ [t] ∧
      ∀ u ∈ (run mockStore ops (emptyStore e)).tasks, u.ID ≠ t.ID := by
  cases e with
  | some e =>
    rw [emptyStore, run_failing] at hok
    simp [AddTask, mockStore, mockStorage.ReadTasks] at hok
  | none =>
    obtain ⟨hord, herr⟩ := run_ordered ops [] 0 ⟨by simp [ids], by simp [ids]⟩ (by omega)
    rw [Nat.zero_add] at hord
    rcases hs : run mockStore ops (emptyStore none) with ⟨tasks, err⟩
    rw [emptyStore] at hs
    rw [hs] at hord herr
    simp only at herr hord
    subst herr
    refine ⟨⟨newID tasks, d, "todo", some now, some now⟩, by rw [mock_add], ?_⟩
    intro u hu
    have := (offset_newID tasks hord hn).2 u.ID (List.mem_map_of_mem _ hu)
    intro heq
    simp only at heq
    rw [heq] at this
    exact lt_irrefl _ this

/-- Witness for C2: after `AddTask`, `AddTask`, `DeleteTask(1)`
the next `AddTask` gives an id that task 2, still stored, does not have. -/
theorem AddTask_id_not_stored_witness :
    ∃ t : Task,
      (AddTask mockStore t1 "Walk the dog" (run mockStore
        [Op.add "Buy groceries" t0, Op.add "Cook dinner" t0, Op.delete 1]
        (emptyStore none))).store.tasks =
        (run mockStore [Op.add "Buy groceries" t0, Op.add "Cook dinner" t0, Op.delete 1]
          (emptyStore none)).tasks ++ [t] ∧
      ∀ u ∈ (run mockStore [Op.add "Buy groceries" t0, Op.add "Cook dinner" t0, Op.delete 1]
          (emptyStore none)).tasks, u.ID ≠ t.ID :=
  AddTask_id_not_stored [Op.add "Buy groceries" t0, Op.add "Cook dinner" t0, Op.delete 1]
    none t1 "Walk the dog" (by decide) (by decide)

/-- C9 (as stated, refuted): the sequence `churn (2^64 - 2)` followed by one more
`AddTask` reaches, from the empty store, a store holding the ids 1, 0, 1: after
the ids have wrapped around the `int64` range, the id 1 of the first task, which
was never deleted, is given to a new task. -/
theorem id_repeated_after_wraparound :
    ids (run mockStore (churn (2 ^ 64 - 2) ++ [Op.add "" t0]) (emptyStore none)).tasks =
      [1, 0, 1] ∧
    ¬ (ids (run mockStore (churn (2 ^ 64 - 2) ++ [Op.add "" t0]) (emptyStore none)).tasks).Nodup := by
  have hrun : ids (run mockStore (churn (2 ^ 64 - 2) ++ [Op.add "" t0])
      (emptyStore none)).tasks = [1, 0, 1] := by
    have hzero : wrapInt64 (((2 ^ 64 - 2 : Nat) : Int) + 2) = 0 := by
      unfold wrapInt64
      omega
    have hone : newID [blank 1, blank 0] = 1 := by decide
    rw [run_append, run_churn _ (le_refl _), hzero, run_cons, run_nil, apply_add, mock_add,
      hone]
    rfl
  rw [hrun]
  exact ⟨rfl, by decide⟩

/-- C9 (amended): in every store reached from the empty store by a finite
sequence of `TaskManager` calls (`AddTask`, `UpdateTask`, `DeleteTask`,
`MarkTaskTodo/InProgress/Done`, successful or failing) that holds at most 2^64
calls of `AddTask`, no two stored tasks have the same id. -/
theorem ids_unique (ops : List Op) (e : Option String)
    (hn : ops.countP Op.isAdd ≤ 2 ^ 64) :
    (ids (run mockStore ops (emptyStore e)).tasks).Nodup := by
  cases e with
  | some e =>
    rw [emptyStore, run_failing]
    simp [ids]
  | none =>
    have h := (run_ordered ops [] 0 ⟨by simp [ids], by simp [ids]⟩ (by omega)).1
    exact h.nodup

/-- Witness for C9: the scenario of the specification followed by two more `AddTask`. -/
theorem ids_unique_witness :
    (ids (run mockStore
      [Op.add "Buy groceries" t0, Op.markInProgress 1 t1,
        Op.update 1 "Buy groceries and cook dinner" t1, Op.delete 1, Op.delete 1,
        Op.add "Cook dinner" t1, Op.add "Walk the dog" t1] (emptyStore none)).tasks).Nodup :=
  ids_unique _ none (by decide)

/-! ## The timestamps under UpdateTask and the status changes -/

theorem scanFirst_map {β : Type} (g : Task → β) (id : Int) (f : Task → Task)
    (hf : ∀ t, g (f t) = g t) (tasks tasks1 : List Task)
    (h : scanFirst id f tasks = some tasks1) : tasks1.map g = tasks.map g := by
  induction tasks generalizing tasks1 with
  | nil => simp [scanFirst] at h
  | cons a rest ih =>
    by_cases ha : a.ID = id
    · simp only [scanFirst, if_pos ha, Option.some.injEq] at h
      subst h
      simp [hf]
    · simp only [scanFirst, if_neg ha, Option.map_eq_some'] at h
      obtain ⟨r, hr, rfl⟩ := h
      simp [ih r hr]

theorem UpdateTask_keeps {σ β : Type} (g : Task → β) (S : Storage σ) (s : σ)
    (tasks : List Task) (now : Time) (id : Int) (d : String)
    (hg : ∀ (t : Task) (d1 : String) (u : Option Time),
      g { t with Description := d1, UpdatedAt := u } = g t)
    (hread : S.ReadTasks s = .ok tasks) :
    ((UpdateTask S now id d s).writes = [] ∧ (UpdateTask S now id d s).store = s) ∨
    ∃ w, (UpdateTask S now id d s).writes = [w] ∧
      (UpdateTask S now id d s).store = (S.WriteTasks w s).2 ∧ w.map g = tasks.map g := by
  rcases hscan : scanFirst id
      (fun t => { t with Description := d, UpdatedAt := some now }) tasks with _ | tasks1
  · left
    rw [UpdateTask_notFound S s tasks now id d hread
      ((scanFirst_eq_none_iff id _ tasks).1 hscan)]
    exact ⟨rfl, rfl⟩
  · right
    obtain ⟨hw, hstore, -⟩ := scan_write S s tasks tasks1 now id d hread hscan
    exact ⟨tasks1, hw, hstore,
      scanFirst_map g id _ (fun t => hg t d (some now)) tasks tasks1 hscan⟩

theorem updateTaskStatus_keeps {σ β : Type} (g : Task → β) (S : Storage σ) (s : σ)
    (tasks : List Task) (now : Time) (id : Int) (status : String)
    (hg : ∀ (t : Task) (st : String) (u : Option Time),
      g { t with Status := st, UpdatedAt := u } = g t)
    (hread : S.ReadTasks s = .ok tasks) :
    ((updateTaskStatus S now id status s).writes = [] ∧
      (updateTaskStatus S now id status s).store = s) ∨
    ∃ w, (updateTaskStatus S now id status s).writes = [w] ∧
      (updateTaskStatus S now id status s).store = (S.WriteTasks w s).2 ∧
      w.map g = tasks.map g := by
  rcases hscan : scanFirst id
      (fun t => { t with Status := status, UpdatedAt := some now }) tasks with _ | tasks1
  · left
    rw [updateTaskStatus_notFound S s tasks now id status hread
      ((scanFirst_eq_none_iff id _ tasks).1 hscan)]
    exact ⟨rfl, rfl⟩
  · right
    obtain ⟨hw, hstore, -⟩ := status_write S s tasks tasks1 now id status hread hscan
    exact ⟨tasks1, hw, hstore,
      scanFirst_map g id _ (fun t => hg t status (some now)) tasks tasks1 hscan⟩

/-- C11: `createdAt` never changes. For every stored collection and every call of
`UpdateTask`, `MarkTaskTodo`, `MarkTaskInProgress` or `MarkTaskDone`, either the
call writes nothing and leaves the store as it was, or it makes one write, of a
collection whose tasks carry, position by position, the ids and the `createdAt`
of the stored tasks, the mutated task included. -/
theorem createdAt_unchanged {σ : Type} (S : Storage σ) (s : σ) (tasks : List Task)
    (now : Time) (id : Int) (d : String) (hread : S.ReadTasks s = .ok tasks) :
    ∀ r ∈ [UpdateTask S now id d s, MarkTaskTodo S now id s, MarkTaskInProgress S now id s,
        MarkTaskDone S now id s],
      (r.writes = [] ∧ r.store = s) ∨
      ∃ w, r.writes = [w] ∧ r.store = (S.WriteTasks w s).2 ∧
        w.map (fun t => (t.ID, t.CreatedAt)) = tasks.map (fun t => (t.ID, t.CreatedAt)) := by
  intro r hr
  simp only [List.mem_cons, List.mem_singleton, List.not_mem_nil, or_false] at hr
  rcases hr with rfl | rfl | rfl | rfl
  · exact UpdateTask_keeps _ S s tasks now id d (fun _ _ _ => rfl) hread
  · exact updateTaskStatus_keeps _ S s tasks now id "todo" (fun _ _ _ => rfl) hread
  · exact updateTaskStatus_keeps _ S s tasks now id "in-progress" (fun _ _ _ => rfl) hread
  · exact updateTaskStatus_keeps _ S s tasks now id "done" (fun _ _ _ => rfl) hread

/-- Witness for C11: `MarkTaskDone(2)` at the later time on the store holding
tasks 1 and 2 writes a collection with the ids and `createdAt` of before. -/
theorem createdAt_unchanged_witness :
    ∃ w, (MarkTaskDone mockStore t1 2 ⟨[groceries, dinner], none⟩).writes = [w] ∧
      w.map (fun t => (t.ID, t.CreatedAt)) = [(1, some t0), (2, some t0)] := by
  rcases createdAt_unchanged mockStore ⟨[groceries, dinner], none⟩ [groceries, dinner] t1 2
      "" rfl (MarkTaskDone mockStore t1 2 ⟨[groceries, dinner], none⟩) (by simp) with h | h
  · exact absurd h.1 (by decide)
  · obtain ⟨w, hw, -, hmap⟩ := h
    exact ⟨w, hw, hmap⟩

/-- C12 (as stated, refuted): `UpdateTask(1, ...)` succeeds on the store holding
task 1, whose `updatedAt` is the clock reading `t0`, when the clock reads `t0`
during the call; the `updatedAt` of the mutated task is then what it was before. -/
theorem updatedAt_same_reading :
    (UpdateTask mockStore t0 1 "Buy groceries and cook dinner" ⟨[groceries], none⟩).err = none ∧
    (UpdateTask mockStore t0 1 "Buy groceries and cook dinner" ⟨[groceries], none⟩).writes =
      [[⟨1, "Buy groceries and cook dinner", "todo", some t0, some t0⟩]] ∧
    groceries.UpdatedAt = some t0 := by
  decide

/-- C12 (amended): every `UpdateTask`, `MarkTaskTodo`, `MarkTaskInProgress` or
`MarkTaskDone` call that finds the id (so every successful one) makes one write,
of the stored collection with the first task of that id replaced by a task
whose `updatedAt` is the time read during the call; that value differs from the
one before the call whenever the time read differs from it; all other tasks,
hence their `updatedAt`, are as before. -/
theorem updatedAt_refreshed {σ : Type} (S : Storage σ) (s : σ) (tasks : List Task)
    (now : Time) (id : Int) (d : String) (hread : S.ReadTasks s = .ok tasks)
    (hex : ∃ t ∈ tasks, t.ID = id) :
    ∃ pre t post, tasks = pre ++ t :: post ∧ (∀ u ∈ pre, u.ID ≠ id) ∧ t.ID = id ∧
      ∀ r ∈ [UpdateTask S now id d s, MarkTaskTodo S now id s, MarkTaskInProgress S now id s,
          MarkTaskDone S now id s],
        ∃ t1 : Task, r.writes = [pre ++ t1 :: post] ∧ t1.UpdatedAt = some now ∧
          (t.UpdatedAt ≠ some now → t1.UpdatedAt ≠ t.UpdatedAt) := by
  obtain ⟨pre, t, post, hsplit, hpre, hid, -⟩ := scanFirst_split id (fun t => t) tasks hex
  refine ⟨pre, t, post, hsplit, hpre, hid, ?_⟩
  have hstatus : ∀ status : String, ∃ t1 : Task,
      (updateTaskStatus S now id status s).writes = [pre ++ t1 :: post] ∧
      t1.UpdatedAt = some now ∧ (t.UpdatedAt ≠ some now → t1.UpdatedAt ≠ t.UpdatedAt) := by
    intro status
    have hscan := scanFirst_append id
      (fun t => { t with Status := status, UpdatedAt := some now }) pre t post hpre hid
    rw [← hsplit] at hscan
    exact ⟨_, (status_write S s tasks _ now id status hread hscan).1, rfl,
      fun h => Ne.symm h⟩
  intro r hr
  simp only [List.mem_cons, List.mem_singleton, List.not_mem_nil, or_false] at hr
  rcases hr with rfl | rfl | rfl | rfl
  · have hscan := scanFirst_append id
      (fun t => { t with Description := d, UpdatedAt := some now }) pre t post hpre hid
    rw [← hsplit] at hscan
    exact ⟨_, (scan_write S s tasks _ now id d hread hscan).1, rfl, fun h => Ne.symm h⟩
  · exact hstatus "todo"
  · exact hstatus "in-progress"
  · exact hstatus "done"

/-- Witness for C12: `MarkTaskInProgress(1)` at the later time `t1` on the store
holding tasks 1 and 2; the `updatedAt` of task 1 becomes `t1`, which it was not. -/
theorem updatedAt_refreshed_witness :
    ∃ pre t post, [groceries, dinner] = pre ++ t :: post ∧ t.ID = 1 ∧
      ∃ t2 : Task,
        (MarkTaskInProgress mockStore t1 1 ⟨[groceries, dinner], none⟩).writes =
          [pre ++ t2 :: post] ∧
        t2.UpdatedAt = some t1 ∧ (t.UpdatedAt ≠ some t1 → t2.UpdatedAt ≠ t.UpdatedAt) := by
  obtain ⟨pre, t, post, hsplit, -, hid, h⟩ :=
    updatedAt_refreshed mockStore ⟨[groceries, dinner], none⟩ [groceries, dinner] t1 1 ""
      rfl ⟨groceries, by decide, rfl⟩
  exact ⟨pre, t, post, hsplit, hid, h _ (by simp)⟩

/-! ## FileStorage -/

theorem Disk.set_same (disk : Disk) (name : String) (st : FileState) :
    (disk.set name st) name = st := by
  simp [Disk.set]

theorem writeAt_empty (data : Bytes) : writeAt [] 0 data = data := by
  simp [writeAt]

/-! ## The JSON encoding read back -/

theorem char_toNat_valid (c : Char) :
    c.toNat < 0xD800 ∨ (0xDFFF < c.toNat ∧ c.toNat < 0x110000) := c.valid

theorem decodeRune_encode (c : Char) (rest : List Nat) :
    decodeRune (utf8EncodeChar c ++ rest) = (c, rest) := by
  have hv := char_toNat_valid c
  unfold utf8EncodeChar
  by_cases h1 : c.toNat < 0x80
  · simp only [if_pos h1, List.singleton_append, decodeRune, Char.ofNat_toNat]
  · by_cases h2 : c.toNat < 0x800
    · have e : (0xC0 + c.toNat / 64 - 0xC0) * 64 + (0x80 + c.toNat % 64 - 0x80) = c.toNat := by
        omega
      have hb0 : ¬ (0xC0 + c.toNat / 64 < 0x80) := by omega
      have hc : 0xC2 ≤ 0xC0 + c.toNat / 64 ∧ 0xC0 + c.toNat / 64 < 0xE0 ∧
          isCont (0x80 + c.toNat % 64) = true := by
        refine ⟨by omega, by omega, ?_⟩
        simp only [isCont, decide_eq_true_eq]
        omega
      rcases rest with _ | ⟨r1, _ | ⟨r2, rest⟩⟩ <;>
        simp only [if_neg h1, if_pos h2, List.cons_append, List.nil_append, decodeRune,
          if_neg hb0, if_pos hc, e, Char.ofNat_toNat]
    · by_cases h3 : c.toNat < 0x10000
      · have e : (0xE0 + c.toNat / 4096 - 0xE0) * 4096 + (0x80 + c.toNat / 64 % 64 - 0x80) * 64 +
            (0x80 + c.toNat % 64 - 0x80) = c.toNat := by omega
        have hb0 : ¬ (0xE0 + c.toNat / 4096 < 0x80) := by omega
        have hc2 : ¬ (0xC2 ≤ 0xE0 + c.toNat / 4096 ∧ 0xE0 + c.toNat / 4096 < 0xE0 ∧
            isCont (0x80 + c.toNat / 64 % 64) = true) := by omega
        have hc : 0xE0 ≤ 0xE0 + c.toNat / 4096 ∧ 0xE0 + c.toNat / 4096 < 0xF0 ∧
            isCont (0x80 + c.toNat / 64 % 64) = true ∧ isCont (0x80 + c.toNat % 64) = true ∧
            0x800 ≤ c.toNat ∧ ¬ (0xD800 ≤ c.toNat ∧ c.toNat < 0xE000) := by
          refine ⟨by omega, by omega, ?_, ?_, by omega, by omega⟩ <;>
            (simp only [isCont, decide_eq_true_eq]; omega)
        rcases rest with _ | ⟨r1, rest⟩ <;>
          simp only [if_neg h1, if_neg h2, if_pos h3, List.cons_append, List.nil_append,
            decodeRune, if_neg hb0, if_neg hc2, e, if_pos hc, Char.ofNat_toNat]
      · have e : (0xF0 + c.toNat / 262144 - 0xF0) * 262144 +
            (0x80 + c.toNat / 4096 % 64 - 0x80) * 4096 +
            (0x80 + c.toNat / 64 % 64 - 0x80) * 64 + (0x80 + c.toNat % 64 - 0x80) = c.toNat := by
          omega
        have hb0 : ¬ (0xF0 + c.toNat / 262144 < 0x80) := by omega
        have hc2 : ¬ (0xC2 ≤ 0xF0 + c.toNat / 262144 ∧ 0xF0 + c.toNat / 262144 < 0xE0 ∧
            isCont (0x80 + c.toNat / 4096 % 64) = true) := by omega
        have hc3 : ¬ (0xE0 ≤ 0xF0 + c.toNat / 262144 ∧ 0xF0 + c.toNat / 262144 < 0xF0 ∧
            isCont (0x80 + c.toNat / 4096 % 64) = true ∧
            isCont (0x80 + c.toNat / 64 % 64) = true ∧
            0x800 ≤ (0xF0 + c.toNat / 262144 - 0xE0) * 4096 +
              (0x80 + c.toNat / 4096 % 64 - 0x80) * 64 + (0x80 + c.toNat / 64 % 64 - 0x80) ∧
            ¬ (0xD800 ≤ (0xF0 + c.toNat / 262144 - 0xE0) * 4096 +
              (0x80 + c.toNat / 4096 % 64 - 0x80) * 64 + (0x80 + c.toNat / 64 % 64 - 0x80) ∧
              (0xF0 + c.toNat / 262144 - 0xE0) * 4096 +
              (0x80 + c.toNat / 4096 % 64 - 0x80) * 64 + (0x80 + c.toNat / 64 % 64 - 0x80) <
                0xE000)) := by omega
        have hc : 0xF0 ≤ 0xF0 + c.toNat / 262144 ∧ 0xF0 + c.toNat / 262144 < 0xF5 ∧
            isCont (0x80 + c.toNat / 4096 % 64) = true ∧
            isCont (0x80 + c.toNat / 64 % 64) = true ∧ isCont (0x80 + c.toNat % 64) = true ∧
            0x10000 ≤ c.toNat ∧ c.toNat < 0x110000 := by
          refine ⟨by omega, by omega, ?_, ?_, ?_, by omega, by omega⟩ <;>
            (simp only [isCont, decide_eq_true_eq]; omega)
        simp only [if_neg h1, if_neg h2, if_neg h3, List.cons_append, List.nil_append,
          decodeRune, if_neg hb0, if_neg hc2, if_neg hc3, e, if_pos hc, Char.ofNat_toNat]

theorem utf8EncodeChar_length_pos (c : Char) : 0 < (utf8EncodeChar c).length := by
  unfold utf8EncodeChar
  split_ifs <;> simp

theorem utf8EncodeChar_lt (c : Char) : ∀ b ∈ utf8EncodeChar c, b < 256 := by
  have hv := char_toNat_valid c
  unfold utf8EncodeChar
  split_ifs <;> simp <;> omega

theorem utf8DecodeFuel_encode (s : List Char) :
    ∀ fuel, (s.flatMap utf8EncodeChar).length ≤ fuel →
      utf8DecodeFuel fuel (s.flatMap utf8EncodeChar) = s := by
  induction s with
  | nil =>
    intro fuel _
    cases fuel <;> simp [utf8DecodeFuel]
  | cons c s ih =>
    intro fuel hfuel
    have hpos := utf8EncodeChar_length_pos c
    simp only [List.flatMap_cons, List.length_append] at hfuel ⊢
    obtain ⟨b, bs, hbs⟩ : ∃ b bs, utf8EncodeChar c = b :: bs := by
      cases h : utf8EncodeChar c with
      | nil => rw [h] at hpos; simp at hpos
      | cons b bs => exact ⟨b, bs, rfl⟩
    cases fuel with
    | zero => omega
    | succ fuel =>
      have hdec := decodeRune_encode c (s.flatMap utf8EncodeChar)
      rw [hbs] at hdec hfuel
      rw [hbs, List.cons_append, utf8DecodeFuel, ← List.cons_append, hdec]
      simp only at hfuel ⊢
      rw [ih fuel (by simp only [List.length_cons] at hfuel; omega)]

theorem utf8Decode_encode (s : List Char) : utf8Decode (utf8Encode s) = s := by
  have hmap : (List.map Nat.toUInt8 (s.flatMap utf8EncodeChar)).map UInt8.toNat =
      s.flatMap utf8EncodeChar := by
    rw [List.map_map]
    conv_rhs => rw [← List.map_id (s.flatMap utf8EncodeChar)]
    apply List.map_congr_left
    intro b hb
    obtain ⟨c, -, hc⟩ := List.mem_flatMap.1 hb
    have hlt := utf8EncodeChar_lt c b hc
    simp only [Function.comp_apply, id_eq]
    exact UInt8.toNat_ofNat_of_lt hlt
  unfold utf8Decode utf8Encode utf8DecodeNat
  rw [hmap]
  exact utf8DecodeFuel_encode s _ (le_refl _)

theorem hexVal_digitChar (d : Nat) (h : d < 16) : hexVal (Nat.digitChar d) = some d := by
  interval_cases d <;> decide

theorem unhex4_hex4 (n : Nat) (h : n < 65536) :
    unhex4 (Nat.digitChar (n / 4096 % 16)) (Nat.digitChar (n / 256 % 16))
      (Nat.digitChar (n / 16 % 16)) (Nat.digitChar (n % 16)) = some n := by
  unfold unhex4
  rw [hexVal_digitChar _ (Nat.mod_lt _ (by decide)), hexVal_digitChar _ (Nat.mod_lt _ (by decide)),
    hexVal_digitChar _ (Nat.mod_lt _ (by decide)), hexVal_digitChar _ (Nat.mod_lt _ (by decide))]
  simp only [Option.some.injEq]
  omega

theorem unquoteStep_hex (c : Char) (rest : List Char) (h : c.toNat < 65536) :
    unquoteStep '\\' ('u' :: hex4 c.toNat ++ rest) = some (c, rest) := by
  have hv := char_toNat_valid c
  have hsur : ¬ (0xD800 ≤ c.toNat ∧ c.toNat < 0xE000) := by omega
  simp only [unquoteStep, hex4, List.cons_append, List.nil_append, if_true, unhex4_hex4 _ h,
    if_neg hsur, Char.ofNat_toNat]

theorem unquoteStep_escape (c : Char) (rest : List Char) :
    ∃ e0 etail, escapeChar c = e0 :: etail ∧ e0 ≠ '"' ∧
      unquoteStep e0 (etail ++ rest) = some (c, rest) := by
  unfold escapeChar
  by_cases h1 : c = '"'
  · subst h1
    exact ⟨'\\', ['"'], by simp, by decide, by simp [unquoteStep, simpleEscape]⟩
  by_cases h2 : c = '\\'
  · subst h2
    exact ⟨'\\', ['\\'], by simp, by decide, by simp [unquoteStep, simpleEscape]⟩
  by_cases h3 : c = '\n'
  · subst h3
    exact ⟨'\\', ['n'], by simp, by decide, by simp [unquoteStep, simpleEscape]⟩
  by_cases h4 : c = '\r'
  · subst h4
    exact ⟨'\\', ['r'], by simp, by decide, by simp [unquoteStep, simpleEscape]⟩
  by_cases h5 : c = '\t'
  · subst h5
    exact ⟨'\\', ['t'], by simp, by decide, by simp [unquoteStep, simpleEscape]⟩
  by_cases h6 : c.toNat < 0x20 ∨ c = '<' ∨ c = '>' ∨ c = '&' ∨ c.toNat = 0x2028 ∨
      c.toNat = 0x2029
  · have hlt : c.toNat < 65536 := by
      rcases h6 with h | h | h | h | h | h
      · omega
      · subst h; decide
      · subst h; decide
      · subst h; decide
      · omega
      · omega
    refine ⟨'\\', 'u' :: hex4 c.toNat, by simp [h1, h2, h3, h4, h5, h6], by decide, ?_⟩
    exact unquoteStep_hex c rest hlt
  · refine ⟨c, [], by simp [h1, h2, h3, h4, h5, h6], h1, ?_⟩
    have hge : ¬ c.toNat < 0x20 := fun h => h6 (Or.inl h)
    simp [unquoteStep, h2, hge]

theorem escapeChar_length_pos (c : Char) : 0 < (escapeChar c).length := by
  obtain ⟨e0, etail, h, -, -⟩ := unquoteStep_escape c []
  rw [h]
  simp

theorem unquoteFuel_escape (s : List Char) (rest : List Char) :
    ∀ fuel, s.length < fuel →
      unquoteFuel fuel (s.flatMap escapeChar ++ '"' :: rest) = some (s, rest) := by
  induction s with
  | nil =>
    intro fuel hfuel
    cases fuel with
    | zero => omega
    | succ fuel => simp [unquoteFuel]
  | cons c s ih =>
    intro fuel hfuel
    cases fuel with
    | zero => omega
    | succ fuel =>
      obtain ⟨e0, etail, hesc, hne, hstep⟩ :=
        unquoteStep_escape c (s.flatMap escapeChar ++ '"' :: rest)
      simp only [List.length_cons] at hfuel
      rw [List.flatMap_cons, hesc]
      simp only [List.cons_append, List.append_assoc]
      rw [unquoteFuel, if_neg hne, hstep]
      simp only [ih fuel (by omega), Option.map_some']

theorem flatMap_escape_length (s : List Char) : s.length ≤ (s.flatMap escapeChar).length := by
  induction s with
  | nil => simp
  | cons c s ih =>
    have := escapeChar_length_pos c
    simp only [List.flatMap_cons, List.length_append, List.length_cons]
    omega

theorem parseString_quote (s : String) (rest : List Char) :
    parseString (quote s ++ rest) = some (s, rest) := by
  unfold parseString quote unquoteBody
  simp only [List.cons_append, List.append_assoc, List.nil_append, if_true]
  rw [unquoteFuel_escape s.toList rest _ (by
    have := flatMap_escape_length s.toList
    simp only [List.length_append, List.length_cons]
    omega)]
  rfl

theorem digitChar_isDigit (d : Nat) (h : d < 10) :
    (Nat.digitChar d).isDigit = true ∧ (Nat.digitChar d).toNat - 48 = d ∧
      (0 < d → Nat.digitChar d ≠ '0') := by
  interval_cases d <;> decide

theorem toDigitsCore_isDigit (fuel : Nat) : ∀ (n : Nat) (ds : List Char),
    (∀ c ∈ ds, c.isDigit = true) → ∀ c ∈ Nat.toDigitsCore 10 fuel n ds, c.isDigit = true := by
  induction fuel with
  | zero => intro n ds h; simpa [Nat.toDigitsCore] using h
  | succ fuel ih =>
    intro n ds h
    have hd := (digitChar_isDigit (n % 10) (Nat.mod_lt _ (by decide))).1
    have hds : ∀ c ∈ Nat.digitChar (n % 10) :: ds, c.isDigit = true := by
      intro c hc
      rcases List.mem_cons.1 hc with rfl | hc
      · exact hd
      · exact h c hc
    simp only [Nat.toDigitsCore]
    split_ifs
    · exact hds
    · exact ih _ _ hds

theorem toDigitsCore_value (fuel : Nat) : ∀ (n : Nat) (ds : List Char), n < fuel →
    (Nat.toDigitsCore 10 fuel n ds).foldl (fun a c => 10 * a + (c.toNat - 48)) 0 =
      ds.foldl (fun a c => 10 * a + (c.toNat - 48)) n := by
  induction fuel with
  | zero => intro n ds h; omega
  | succ fuel ih =>
    intro n ds h
    have hd := (digitChar_isDigit (n % 10) (Nat.mod_lt _ (by decide))).2.1
    simp only [Nat.toDigitsCore]
    split_ifs with h0
    · have : n % 10 = n := by omega
      simp only [List.foldl_cons, Nat.mul_zero, Nat.zero_add, hd]
      rw [this]
    · rw [ih (n / 10) _ (by omega)]
      simp only [List.foldl_cons, hd]
      congr 1
      omega

theorem toDigitsCore_head (fuel : Nat) : ∀ (n : Nat) (ds : List Char), n < fuel → 0 < n →
    ∃ c tail, Nat.toDigitsCore 10 fuel n ds = c :: tail ∧ c ≠ '0' := by
  induction fuel with
  | zero => intro n ds h; omega
  | succ fuel ih =>
    intro n ds h hpos
    simp only [Nat.toDigitsCore]
    split_ifs with h0
    · have h10 : n % 10 = n := by omega
      exact ⟨_, _, rfl, (digitChar_isDigit (n % 10) (Nat.mod_lt _ (by decide))).2.2 (by omega)⟩
    · exact ih (n / 10) _ (by omega) (by omega)

theorem toDigits_facts (n : Nat) :
    (∀ c ∈ Nat.toDigits 10 n, c.isDigit = true) ∧ digitsValue (Nat.toDigits 10 n) = n ∧
    ∃ c tail, Nat.toDigits 10 n = c :: tail ∧ c.isDigit = true ∧ (tail ≠ [] → c ≠ '0') := by
  have hall := toDigitsCore_isDigit (n + 1) n [] (by simp)
  refine ⟨hall, ?_, ?_⟩
  · unfold digitsValue Nat.toDigits
    rw [toDigitsCore_value (n + 1) n [] (by omega)]
    rfl
  · rcases Nat.eq_zero_or_pos n with h0 | hpos
    · subst h0
      exact ⟨'0', [], by decide, by decide, by simp⟩
    · obtain ⟨c, tail, hct, hc⟩ := toDigitsCore_head (n + 1) n [] (by omega) hpos
      refine ⟨c, tail, hct, ?_, fun _ => hc⟩
      apply hall
      rw [hct]
      simp

theorem span_append (p : Char → Bool) (ds rest : List Char) (hall : ∀ c ∈ ds, p c = true)
    (hrest : ∀ c, rest.head? = some c → p c = false) :
    (ds ++ rest).takeWhile p = ds ∧ (ds ++ rest).dropWhile p = rest := by
  induction ds with
  | nil =>
    cases rest with
    | nil => simp
    | cons r rest => simp [hrest r rfl, List.takeWhile, List.dropWhile]
  | cons d ds ih =>
    have hd := hall d (List.mem_cons_self _ _)
    have := ih (fun c hc => hall c (List.mem_cons_of_mem _ hc))
    simp [List.takeWhile, List.dropWhile, hd, this.1, this.2]

theorem parseDigits_format (n : Nat) (negative : Bool) (rest : List Char)
    (hrest : ∀ c, rest.head? = some c → c.isDigit = false ∧ c ≠ '.' ∧ c ≠ 'e' ∧ c ≠ 'E')
    (hrange : inInt64 (if negative then -(n : Int) else (n : Int))) :
    parseDigits negative (Nat.toDigits 10 n ++ rest) =
      some ((if negative then -(n : Int) else (n : Int)), rest) := by
  obtain ⟨hall, hval, c, tail, hct, hcd, hc0⟩ := toDigits_facts n
  obtain ⟨htake, hdrop⟩ := span_append Char.isDigit (Nat.toDigits 10 n) rest hall
    (fun c hc => (hrest c hc).1)
  unfold parseDigits
  simp only [htake, hdrop, hval]
  have hne : Nat.toDigits 10 n ≠ [] := by rw [hct]; simp
  have hlead : ¬ (1 < (Nat.toDigits 10 n).length ∧ (Nat.toDigits 10 n).head? = some '0') := by
    rw [hct]
    rintro ⟨hlen, hhead⟩
    have : tail ≠ [] := by
      intro h
      rw [h] at hlen
      simp at hlen
    simp only [List.head?_cons, Option.some.injEq] at hhead
    exact hc0 this hhead
  have hfrac : ¬ (rest.head? = some '.' ∨ rest.head? = some 'e' ∨ rest.head? = some 'E') := by
    rintro (h | h | h)
    · exact (hrest _ h).2.1 rfl
    · exact (hrest _ h).2.2.1 rfl
    · exact (hrest _ h).2.2.2 rfl
  rw [if_neg hne, if_neg hlead, if_neg hfrac, if_pos hrange]

theorem parseInt64_format (n : Int) (rest : List Char)
    (hrest : ∀ c, rest.head? = some c → c.isDigit = false ∧ c ≠ '.' ∧ c ≠ 'e' ∧ c ≠ 'E')
    (hrange : inInt64 n) : parseInt64 (formatInt n ++ rest) = some (n, rest) := by
  obtain ⟨-, -, c, tail, hct, hcd, -⟩ := toDigits_facts n.natAbs
  unfold parseInt64 formatInt
  by_cases hneg : n < 0
  · have hn : -(n.natAbs : Int) = n := by omega
    have key := parseDigits_format n.natAbs true rest hrest (by rw [if_pos rfl, hn]; exact hrange)
    rw [if_pos rfl, hn] at key
    rw [if_pos hneg]
    simp only [List.cons_append, List.head?_cons, if_true, List.tail_cons]
    exact key
  · have hn : (n.natAbs : Int) = n := by omega
    have key := parseDigits_format n.natAbs false rest hrest (by
      rw [if_neg (by decide), hn]; exact hrange)
    rw [if_neg (by decide), hn] at key
    have hhead : ¬ ((Nat.toDigits 10 n.natAbs ++ rest).head? = some '-') := by
      rw [hct]
      simp only [List.cons_append, List.head?_cons, Option.some.injEq]
      rintro rfl
      exact absurd hcd (by decide)
    rw [if_neg hneg, if_neg hhead]
    exact key

theorem yearDay_inverse (z : Int) :
    146097 * ((yearDay z).1 / 400) + 36524 * ((yearDay z).1 % 400 / 100) +
      1461 * ((yearDay z).1 % 100 / 4) + 365 * ((yearDay z).1 % 4) + (yearDay z).2 = z := by
  simp only [yearDay]
  generalize ha : z / 146097 = a
  generalize hr : z % 146097 = r400
  generalize hb : min (r400 / 36524) 3 = b
  generalize hc : (r400 - 36524 * b) / 1461 = c
  generalize hr4 : (r400 - 36524 * b) % 1461 = r4
  generalize he : min (r4 / 365) 3 = e
  have hb1 : 0 ≤ b ∧ b ≤ 3 := by omega
  have hc1 : 0 ≤ c ∧ c ≤ 24 := by omega
  have he1 : 0 ≤ e ∧ e ≤ 3 := by omega
  have h1 : (400 * a + 100 * b + 4 * c + e) / 400 = a := by omega
  have h2 : (400 * a + 100 * b + 4 * c + e) % 400 / 100 = b := by omega
  have h3 : (400 * a + 100 * b + 4 * c + e) % 100 / 4 = c := by omega
  have h4 : (400 * a + 100 * b + 4 * c + e) % 4 = e := by omega
  rw [h1, h2, h3, h4]
  omega

theorem yearDay_bounds (z : Int) : 0 ≤ (yearDay z).2 ∧ (yearDay z).2 ≤ 365 := by
  simp only [yearDay]
  omega

theorem yearDay_leap (z : Int) (h : (yearDay z).2 = 365) :
    isLeap ((yearDay z).1 + 1) = true := by
  simp only [yearDay, isLeap] at *
  simp only [decide_eq_true_eq]
  generalize ha : z / 146097 = a at *
  generalize hr : z % 146097 = r400 at *
  generalize hb : min (r400 / 36524) 3 = b at *
  generalize hc : (r400 - 36524 * b) / 1461 = c at *
  generalize hr4 : (r400 - 36524 * b) % 1461 = r4 at *
  generalize he : min (r4 / 365) 3 = e at *
  have hb1 : 0 ≤ b ∧ b ≤ 3 := by omega
  have hc1 : 0 ≤ c ∧ c ≤ 24 := by omega
  have he1 : e = 3 := by omega
  have hcb : c = 24 → b = 3 := by omega
  subst he1
  refine ⟨by omega, ?_⟩
  by_cases h24 : c = 24
  · right
    have := hcb h24
    omega
  · left
    omega

theorem civil_valid (days : Int) :
    1 ≤ (civil days).2.1 ∧ (civil days).2.1 ≤ 12 ∧ 1 ≤ (civil days).2.2 ∧
      (civil days).2.2 ≤ daysIn (civil days).1 (civil days).2.1 ∧
      daysFromCivil (civil days).1 (civil days).2.1 (civil days).2.2 = days := by
  have hinv := yearDay_inverse (days + 719468)
  have hb := yearDay_bounds (days + 719468)
  have hleap := yearDay_leap (days + 719468)
  rcases hyd : yearDay (days + 719468) with ⟨Y, doy⟩
  rw [hyd] at hinv hb hleap
  simp only at hinv hb hleap
  simp only [civil, daysFromCivil, daysIn, hyd]
  generalize hmp : (5 * doy + 2) / 153 = mp
  have hmp1 : 0 ≤ mp ∧ mp ≤ 11 := by omega
  obtain ⟨hmp0, hmp11⟩ := hmp1
  by_cases hfeb : mp = 11
  · subst hfeb
    norm_num
    by_cases hl : isLeap (Y + 1) = true
    · simp only [hl, if_true]
      omega
    · have hd : doy ≠ 365 := fun h => hl (hleap h)
      simp only [hl]
      norm_num
      omega
  · interval_cases mp <;> first | (exfalso; exact hfeb rfl) | (norm_num; omega)

theorem readDigit_step (k acc d : Nat) (h : d < 10) (s : List Char) :
    readDigits (k + 1) acc (Nat.digitChar d :: s) = readDigits k (10 * acc + d) s := by
  obtain ⟨a1, a2, -⟩ := digitChar_isDigit d h
  rw [readDigits, if_pos a1, a2]

theorem readDigits_pad2 (n : Nat) (h : n < 100) (rest : List Char) :
    readDigits 2 0 (pad2 n ++ rest) = some (n, rest) := by
  simp only [pad2, List.cons_append, List.nil_append]
  rw [readDigit_step _ _ _ (Nat.mod_lt _ (by decide)),
    readDigit_step _ _ _ (Nat.mod_lt _ (by decide)), readDigits]
  simp only [Option.some.injEq, Prod.mk.injEq, and_true]
  omega

theorem readDigits_pad4 (n : Nat) (h : n < 10000) (rest : List Char) :
    readDigits 4 0 (pad4 n ++ rest) = some (n, rest) := by
  simp only [pad4, List.cons_append, List.nil_append]
  rw [readDigit_step _ _ _ (Nat.mod_lt _ (by decide)),
    readDigit_step _ _ _ (Nat.mod_lt _ (by decide)),
    readDigit_step _ _ _ (Nat.mod_lt _ (by decide)),
    readDigit_step _ _ _ (Nat.mod_lt _ (by decide)), readDigits]
  simp only [Option.some.injEq, Prod.mk.injEq, and_true]
  omega

theorem pad9_facts (n : Nat) (h : n < 1000000000) :
    (∀ c ∈ pad9 n, c.isDigit = true) ∧ digitsValue (pad9 n) = n ∧ (pad9 n).length = 9 := by
  obtain ⟨a1, a2, -⟩ := digitChar_isDigit (n / 100000000 % 10) (Nat.mod_lt _ (by decide))
  obtain ⟨b1, b2, -⟩ := digitChar_isDigit (n / 10000000 % 10) (Nat.mod_lt _ (by decide))
  obtain ⟨c1, c2, -⟩ := digitChar_isDigit (n / 1000000 % 10) (Nat.mod_lt _ (by decide))
  obtain ⟨d1, d2, -⟩ := digitChar_isDigit (n / 100000 % 10) (Nat.mod_lt _ (by decide))
  obtain ⟨e1, e2, -⟩ := digitChar_isDigit (n / 10000 % 10) (Nat.mod_lt _ (by decide))
  obtain ⟨f1, f2, -⟩ := digitChar_isDigit (n / 1000 % 10) (Nat.mod_lt _ (by decide))
  obtain ⟨g1, g2, -⟩ := digitChar_isDigit (n / 100 % 10) (Nat.mod_lt _ (by decide))
  obtain ⟨i1, i2, -⟩ := digitChar_isDigit (n / 10 % 10) (Nat.mod_lt _ (by decide))
  obtain ⟨j1, j2, -⟩ := digitChar_isDigit (n % 10) (Nat.mod_lt _ (by decide))
  refine ⟨?_, ?_, rfl⟩
  · intro c hc
    simp only [pad9, List.mem_cons, List.mem_singleton, List.not_mem_nil, or_false] at hc
    rcases hc with rfl | rfl | rfl | rfl | rfl | rfl | rfl | rfl | rfl <;> assumption
  · simp only [digitsValue, pad9, List.foldl_cons, List.foldl_nil, a2, b2, c2, d2, e2, f2, g2,
      i2, j2]
    omega

theorem digitsValue_append_zeros (l : List Char) (k : Nat) :
    digitsValue (l ++ List.replicate k '0') = digitsValue l * 10 ^ k := by
  unfold digitsValue
  rw [List.foldl_append]
  generalize List.foldl (fun a c => 10 * a + (c.toNat - 48)) 0 l = a
  induction k generalizing a with
  | zero => simp
  | succ k ih =>
    rw [List.replicate_succ, List.foldl_cons, ih]
    have : ('0' : Char).toNat - 48 = 0 := by decide
    rw [this, Nat.pow_succ]
    ring

theorem trimZeros_spec (l : List Char) :
    ∃ k, l = trimZeros l ++ List.replicate k '0' ∧ (trimZeros l).length + k = l.length := by
  induction l with
  | nil => exact ⟨0, by simp [trimZeros]⟩
  | cons c cs ih =>
    obtain ⟨k, hk, hlen⟩ := ih
    by_cases h : trimZeros cs = [] ∧ c = '0'
    · refine ⟨k + 1, ?_, ?_⟩
      · simp only [trimZeros, if_pos h, List.nil_append]
        rw [h.1, List.nil_append] at hk
        rw [List.replicate_succ, ← hk, h.2]
      · simp only [trimZeros, if_pos h, List.length_nil, List.length_cons]
        rw [h.1] at hlen
        simp only [List.length_nil] at hlen
        omega
    · refine ⟨k, ?_, ?_⟩
      · simp only [trimZeros, if_neg h, List.cons_append]
        rw [← hk]
      · simp only [trimZeros, if_neg h, List.length_cons]
        omega

theorem trimZeros_subset (l : List Char) : ∀ c ∈ trimZeros l, c ∈ l := by
  obtain ⟨k, hk, -⟩ := trimZeros_spec l
  intro c hc
  rw [hk]
  exact List.mem_append_left _ hc

theorem parseFraction_format (n : Nat) (h : n < 1000000000) (rest : List Char) :
    parseFraction (formatFraction n ++ 'Z' :: rest) = (n, 'Z' :: rest) := by
  obtain ⟨hall, hval, hlen⟩ := pad9_facts n h
  obtain ⟨k, hk, hklen⟩ := trimZeros_spec (pad9 n)
  have hv : digitsValue (trimZeros (pad9 n)) * 10 ^ k = n := by
    rw [← digitsValue_append_zeros, ← hk, hval]
  unfold formatFraction
  by_cases hnil : trimZeros (pad9 n) = []
  · rw [if_pos hnil, List.nil_append]
    rw [hnil] at hv
    have hn : n = 0 := by
      rw [← hv]
      simp [digitsValue]
    subst hn
    cases rest with
    | nil => simp [parseFraction]
    | cons r rest => simp [parseFraction]
  · rw [if_neg hnil]
    obtain ⟨d, ds, hd⟩ : ∃ d ds, trimZeros (pad9 n) = d :: ds := by
      cases htz : trimZeros (pad9 n) with
      | nil => exact absurd htz hnil
      | cons d ds => exact ⟨d, ds, rfl⟩
    have halld : ∀ c ∈ d :: ds, c.isDigit = true := by
      intro c hc
      rw [← hd] at hc
      exact hall c (trimZeros_subset _ c hc)
    have hdd : d.isDigit = true := halld d (List.mem_cons_self _ _)
    obtain ⟨htake, hdrop⟩ := span_append Char.isDigit (d :: ds) ('Z' :: rest) halld (by
      intro c hc
      simp only [List.head?_cons, Option.some.injEq] at hc
      subst hc
      decide)
    have hlen9 : (d :: ds).length ≤ 9 := by
      rw [← hd]
      omega
    rw [hd] at hv hklen
    simp only [List.cons_append] at htake hdrop
    simp only [hd, List.cons_append, parseFraction, hdd, and_self, if_true, htake, hdrop,
      List.take_of_length_le hlen9, Prod.mk.injEq, and_true]
    have hk9 : 9 - (d :: ds).length = k := by omega
    rw [hk9]
    exact hv

theorem expectChar_cons (c : Char) (s : List Char) : expectChar c (c :: s) = some s := by
  simp [expectChar]

theorem parseTime_format (t : Time) (text : List Char) (h : formatTime t = .ok text) :
    parseTime text = some t := by
  obtain ⟨hm1, hm12, hd1, hdin, hinv⟩ := civil_valid (t.unixNano / 1000000000 / 86400)
  unfold formatTime at h
  simp only at h
  split_ifs at h with hyear
  simp only [Except.ok.injEq] at h
  generalize hdate : civil (t.unixNano / 1000000000 / 86400) = date at *
  obtain ⟨y, m, d⟩ := date
  simp only at hm1 hm12 hd1 hdin hinv hyear h
  have hy : ((y.toNat : Nat) : Int) = y := Int.toNat_of_nonneg (by omega)
  have hm : ((m.toNat : Nat) : Int) = m := Int.toNat_of_nonneg (by omega)
  have hd : ((d.toNat : Nat) : Int) = d := Int.toNat_of_nonneg (by omega)
  have hd31 : d ≤ 31 := by
    have : daysIn y m ≤ 31 := by
      unfold daysIn
      split_ifs <;> omega
    omega
  generalize hsod : t.unixNano / 1000000000 % 86400 = sod at *
  have hsod0 : 0 ≤ sod ∧ sod < 86400 := by omega
  have hh : (((sod / 3600).toNat : Nat) : Int) = sod / 3600 := Int.toNat_of_nonneg (by omega)
  have hmi : (((sod % 3600 / 60).toNat : Nat) : Int) = sod % 3600 / 60 :=
    Int.toNat_of_nonneg (by omega)
  have hss : (((sod % 60).toNat : Nat) : Int) = sod % 60 := Int.toNat_of_nonneg (by omega)
  generalize hns : t.unixNano % 1000000000 = nsec at *
  have hns0 : 0 ≤ nsec ∧ nsec < 1000000000 := by omega
  have hnsc : ((nsec.toNat : Nat) : Int) = nsec := Int.toNat_of_nonneg (by omega)
  subst h
  unfold parseTime
  simp only [List.append_assoc, List.cons_append, List.nil_append]
  rw [readDigits_pad4 _ (by omega)]
  simp only [expectChar_cons, Option.some_bind]
  rw [readDigits_pad2 _ (by omega)]
  simp only [expectChar_cons, Option.some_bind]
  rw [readDigits_pad2 _ (by omega)]
  simp only [expectChar_cons, Option.some_bind]
  rw [readDigits_pad2 _ (by omega)]
  simp only [expectChar_cons, Option.some_bind]
  rw [readDigits_pad2 _ (by omega)]
  simp only [expectChar_cons, Option.some_bind]
  rw [readDigits_pad2 _ (by omega)]
  simp only [parseFraction_format _ (show nsec.toNat < 1000000000 by omega) [], parseZone,
    if_true]
  have hvalid : 1 ≤ m.toNat ∧ m.toNat ≤ 12 ∧ 1 ≤ d.toNat ∧
      ((d.toNat : Nat) : Int) ≤ daysIn ((y.toNat : Nat) : Int) ((m.toNat : Nat) : Int) ∧
      (sod / 3600).toNat < 24 ∧ (sod % 3600 / 60).toNat < 60 ∧ (sod % 60).toNat < 60 := by
    rw [hy, hm, hd]
    refine ⟨by omega, by omega, by omega, hdin, by omega, by omega, by omega⟩
  rw [if_pos hvalid, hy, hm, hd, hh, hmi, hss, hnsc, hinv]
  congr 1
  cases t
  simp only [Time.mk.injEq] at *
  omega

theorem expect_append (lit rest : List Char) : expect lit (lit ++ rest) = some rest := by
  induction lit with
  | nil => cases rest <;> rfl
  | cons c cs ih => simp [expect, ih]

theorem pad2_isDigit (n : Nat) : ∀ c ∈ pad2 n, c.isDigit = true := by
  intro c hc
  simp only [pad2, List.mem_cons, List.mem_singleton, List.not_mem_nil, or_false] at hc
  rcases hc with rfl | rfl <;> exact (digitChar_isDigit _ (Nat.mod_lt _ (by decide))).1

theorem pad4_isDigit (n : Nat) : ∀ c ∈ pad4 n, c.isDigit = true := by
  intro c hc
  simp only [pad4, List.mem_cons, List.mem_singleton, List.not_mem_nil, or_false] at hc
  rcases hc with rfl | rfl | rfl | rfl <;>
    exact (digitChar_isDigit _ (Nat.mod_lt _ (by decide))).1

theorem isDigit_ne_quote (c : Char) (h : c.isDigit = true) : (c != '"') = true := by
  have : c ≠ '"' := by
    rintro rfl
    exact absurd h (by decide)
  simpa using this

theorem formatFraction_noquote (n : Nat) (h : n < 1000000000) :
    ∀ c ∈ formatFraction n, (c != '"') = true := by
  intro c hc
  unfold formatFraction at hc
  split_ifs at hc
  · simp at hc
  · rcases List.mem_cons.1 hc with rfl | hc
    · decide
    · exact isDigit_ne_quote c ((pad9_facts n h).1 c (trimZeros_subset _ c hc))

theorem formatTime_noquote (t : Time) (text : List Char) (h : formatTime t = .ok text) :
    ∀ c ∈ text, (c != '"') = true := by
  unfold formatTime at h
  simp only at h
  split_ifs at h
  simp only [Except.ok.injEq] at h
  subst h
  have hns : (t.unixNano % 1000000000).toNat < 1000000000 := by omega
  intro c hc
  simp only [List.mem_append, List.mem_cons, List.mem_singleton, List.not_mem_nil,
    or_false] at hc
  rcases hc with ((((((hc | hc) | hc) | hc) | hc) | hc) | hc) | hc
  · exact isDigit_ne_quote c (pad4_isDigit _ c hc)
  · rcases hc with rfl | hc
    · decide
    · exact isDigit_ne_quote c (pad2_isDigit _ c hc)
  · rcases hc with rfl | hc
    · decide
    · exact isDigit_ne_quote c (pad2_isDigit _ c hc)
  · rcases hc with rfl | hc
    · decide
    · exact isDigit_ne_quote c (pad2_isDigit _ c hc)
  · rcases hc with rfl | hc
    · decide
    · exact isDigit_ne_quote c (pad2_isDigit _ c hc)
  · rcases hc with rfl | hc
    · decide
    · exact isDigit_ne_quote c (pad2_isDigit _ c hc)
  · exact formatFraction_noquote _ hns c hc
  · subst hc
    decide

theorem parseTimeField_marshal (o : Option Time) (text rest : List Char)
    (h : marshalTime o = .ok text) : parseTimeField (text ++ rest) = some (o, rest) := by
  cases o with
  | none =>
    simp only [marshalTime, Except.ok.injEq] at h
    subst h
    simp only [parseTimeField, expect_append]
  | some t =>
    simp only [marshalTime] at h
    rcases hf : formatTime t with e | tt
    · rw [hf] at h
      simp at h
    · rw [hf] at h
      simp only [Except.ok.injEq] at h
      subst h
      have hnull : expect "null".toList ('"' :: (tt ++ ['"']) ++ rest) = none := by
        simp [expect, String.toList]
      obtain ⟨htake, hdrop⟩ := span_append (fun c => c != '"') tt ('"' :: rest)
        (formatTime_noquote t tt hf) (by
          intro c hc
          simp only [List.head?_cons, Option.some.injEq] at hc
          subst hc
          decide)
      have hshape : '"' :: (tt ++ ['"']) ++ rest = '"' :: (tt ++ '"' :: rest) := by simp
      unfold parseTimeField
      rw [hnull]
      simp only [hshape, if_true, htake, hdrop, parseTime_format t tt hf, Option.map_some']

theorem keyDescription_head (x : List Char) :
    ∀ c, (keyDescription ++ x).head? = some c →
      c.isDigit = false ∧ c ≠ '.' ∧ c ≠ 'e' ∧ c ≠ 'E' := by
  intro c hc
  have hk : keyDescription = ',' :: "\"description\":".toList := rfl
  rw [hk] at hc
  simp only [List.cons_append, List.head?_cons, Option.some.injEq] at hc
  subst hc
  decide

theorem parseTask_marshal (t : Task) (text rest : List Char) (h : marshalTask t = .ok text)
    (hid : inInt64 t.ID) : parseTask (text ++ rest) = some (t, rest) := by
  unfold marshalTask at h
  rcases hc : marshalTime t.CreatedAt with e | created
  · rw [hc] at h
    simp at h
  rcases hu : marshalTime t.UpdatedAt with e | updated
  · rw [hc, hu] at h
    simp at h
  rw [hc, hu] at h
  simp only [Except.ok.injEq] at h
  subst h
  unfold parseTask
  simp only [List.append_assoc]
  rw [expect_append]
  simp only [Option.some_bind]
  rw [parseInt64_format _ _ (keyDescription_head _) hid]
  simp only [Option.some_bind]
  rw [expect_append]
  simp only [Option.some_bind]
  rw [parseString_quote]
  simp only [Option.some_bind]
  rw [expect_append]
  simp only [Option.some_bind]
  rw [parseString_quote]
  simp only [Option.some_bind]
  rw [expect_append]
  simp only [Option.some_bind]
  rw [parseTimeField_marshal _ _ _ hc]
  simp only [Option.some_bind]
  rw [expect_append]
  simp only [Option.some_bind]
  rw [parseTimeField_marshal _ _ _ hu]
  simp only [Option.some_bind, List.singleton_append, expectChar_cons, Option.map_some']

theorem marshalList_cons (t : Task) (ts : List Task) (body : List Char)
    (h : marshalList (t :: ts) = .ok body) :
    ∃ a, marshalTask t = .ok a ∧
      ((ts = [] ∧ body = a) ∨
        (ts ≠ [] ∧ ∃ b, marshalList ts = .ok b ∧ body = a ++ ',' :: b)) := by
  cases ts with
  | nil => exact ⟨body, h, Or.inl ⟨rfl, rfl⟩⟩
  | cons t2 rest =>
    simp only [marshalList] at h
    rcases ha : marshalTask t with e | a
    · rw [ha] at h
      simp at h
    rcases hb : marshalList (t2 :: rest) with e | b
    · rw [ha, hb] at h
      simp at h
    rw [ha, hb] at h
    simp only [Except.ok.injEq] at h
    exact ⟨a, rfl, Or.inr ⟨by simp, b, rfl, h.symm⟩⟩

theorem parseElems_marshal (ts : List Task) :
    ∀ (body rest : List Char) (fuel : Nat), ts ≠ [] → marshalList ts = .ok body →
      (∀ t ∈ ts, inInt64 t.ID) → ts.length ≤ fuel →
      parseElems fuel (body ++ ']' :: rest) = some (ts, rest) := by
  induction ts with
  | nil => intro body rest fuel hne; exact absurd rfl hne
  | cons t ts ih =>
    intro body rest fuel _ hbody hids hfuel
    obtain ⟨a, ha, hcase⟩ := marshalList_cons t ts body hbody
    have hid := hids t (List.mem_cons_self _ _)
    cases fuel with
    | zero => simp at hfuel
    | succ fuel =>
      rcases hcase with ⟨hnil, rfl⟩ | ⟨hne, b, hb, rfl⟩
      · subst hnil
        rw [parseElems, parseTask_marshal t _ _ ha hid]
        simp
      · rw [parseElems, List.append_assoc, parseTask_marshal t _ _ ha hid]
        simp only [List.cons_append, if_true]
        rw [ih b rest fuel hne hb (fun u hu => hids u (List.mem_cons_of_mem _ hu))
          (by simp only [List.length_cons] at hfuel; omega)]
        simp

theorem marshalTask_length (t : Task) (a : List Char) (h : marshalTask t = .ok a) :
    0 < a.length := by
  unfold marshalTask at h
  rcases hc : marshalTime t.CreatedAt with e | created
  · rw [hc] at h
    simp at h
  rcases hu : marshalTime t.UpdatedAt with e | updated
  · rw [hc, hu] at h
    simp at h
  rw [hc, hu] at h
  simp only [Except.ok.injEq] at h
  subst h
  have hk : keyID = '\x7b' :: "\"id\":".toList := rfl
  rw [hk]
  simp

theorem marshalList_length (ts : List Task) :
    ∀ body, marshalList ts = .ok body → ts.length ≤ body.length := by
  induction ts with
  | nil => intro body _; simp
  | cons t ts ih =>
    intro body hbody
    obtain ⟨a, ha, hcase⟩ := marshalList_cons t ts body hbody
    have hlen := marshalTask_length t a ha
    rcases hcase with ⟨hnil, rfl⟩ | ⟨-, b, hb, rfl⟩
    · subst hnil
      simp only [List.length_cons, List.length_nil]
      omega
    · have := ih b hb
      simp only [List.length_cons, List.length_append]
      omega

theorem unmarshalText_marshalText (ts : List Task) (text : List Char)
    (h : marshalText ts = .ok text) (hids : ∀ t ∈ ts, inInt64 t.ID) :
    unmarshalText text = .ok ts := by
  unfold marshalText at h
  rcases hb : marshalList ts with e | body
  · rw [hb] at h
    simp at h
  rw [hb] at h
  simp only [Except.ok.injEq] at h
  subst h
  cases ts with
  | nil =>
    simp only [marshalList, Except.ok.injEq] at hb
    subst hb
    rfl
  | cons t ts =>
    obtain ⟨a, ha, hcase⟩ := marshalList_cons t ts body hb
    have hlen := marshalList_length _ body hb
    have hparse := parseElems_marshal (t :: ts) body [] (body ++ [']']).length (by simp) hb hids
      (by simp only [List.length_append]; omega)
    have hstart : ∃ c rest, body = '\x7b' :: c :: rest := by
      have hk : ∀ a, marshalTask t = .ok a → ∃ c rest, a = '\x7b' :: c :: rest := by
        intro a ha
        unfold marshalTask at ha
        rcases hc : marshalTime t.CreatedAt with e | created
        · rw [hc] at ha
          simp at ha
        rcases hu : marshalTime t.UpdatedAt with e | updated
        · rw [hc, hu] at ha
          simp at ha
        rw [hc, hu] at ha
        simp only [Except.ok.injEq] at ha
        subst ha
        exact ⟨'"', _, rfl⟩
      obtain ⟨c, rest, hcr⟩ := hk a ha
      rcases hcase with ⟨-, rfl⟩ | ⟨-, b, -, rfl⟩
      · exact ⟨c, rest, hcr⟩
      · exact ⟨c, rest ++ ',' :: b, by rw [hcr]; simp⟩
    obtain ⟨c, rest, hcr⟩ := hstart
    have hnot : ¬ ('[' :: (body ++ [']']) = "null".toList ∨
        '[' :: (body ++ [']']) = "[]".toList) := by
      rw [hcr]
      simp [String.toList]
    unfold unmarshalText
    rw [if_neg hnot]
    simp only [if_true, hparse]

theorem goJSON_roundtrip (ts : List Task) (data : Bytes) (h : goJSON.Marshal ts = .ok data)
    (hids : ∀ t ∈ ts, inInt64 t.ID) : goJSON.Unmarshal data = .ok ts ∧ data ≠ [] := by
  simp only [goJSON] at h ⊢
  rcases ht : marshalText ts with e | text
  · rw [ht] at h
    simp at h
  rw [ht] at h
  simp only [Except.ok.injEq] at h
  subst h
  refine ⟨by rw [utf8Decode_encode]; exact unmarshalText_marshalText ts text ht hids, ?_⟩
  unfold marshalText at ht
  rcases hb : marshalList ts with e | body
  · rw [hb] at ht
    simp at ht
  rw [hb] at ht
  simp only [Except.ok.injEq] at ht
  subst ht
  simp [utf8Encode, utf8EncodeChar]

theorem marshalTime_ok (o : Option Time) (h : yearsOK o) : ∃ text, marshalTime o = .ok text := by
  cases o with
  | none => exact ⟨_, rfl⟩
  | some t =>
    have hy : ¬ ((civil (t.unixNano / 1000000000 / 86400)).1 < 0 ∨
        9999 < (civil (t.unixNano / 1000000000 / 86400)).1) := by
      simp only [yearsOK, Time.year] at h
      omega
    simp only [marshalTime, formatTime, if_neg hy]
    exact ⟨_, rfl⟩

theorem marshalList_ok (ts : List Task) (h : ∀ t ∈ ts, t.writable) :
    ∃ body, marshalList ts = .ok body := by
  induction ts with
  | nil => exact ⟨[], rfl⟩
  | cons t ts ih =>
    obtain ⟨-, hc, hu⟩ := h t (List.mem_cons_self _ _)
    obtain ⟨created, hcreated⟩ := marshalTime_ok _ hc
    obtain ⟨updated, hupdated⟩ := marshalTime_ok _ hu
    obtain ⟨b, hb⟩ := ih (fun u hu => h u (List.mem_cons_of_mem _ hu))
    cases ts with
    | nil =>
      simp only [marshalList, marshalTask, hcreated, hupdated]
      exact ⟨_, rfl⟩
    | cons t2 rest =>
      simp only [marshalList, marshalTask, hcreated, hupdated, hb]
      exact ⟨_, rfl⟩

theorem goJSON_marshal_ok (ts : List Task) (h : ∀ t ∈ ts, t.writable) :
    ∃ data, goJSON.Marshal ts = .ok data := by
  obtain ⟨body, hb⟩ := marshalList_ok ts h
  simp only [goJSON, marshalText, hb]
  exact ⟨_, rfl⟩

theorem FileStorage_write_read (J : JSON) (fs : FileStorage) (disk : Disk) (ts : List Task)
    (data : Bytes) (hopen : (disk fs.filename).openErr = none)
    (hread : (disk fs.filename).readErr = none)
    (hwrite : (disk fs.filename).writeErr = none)
    (hmarshal : J.Marshal ts = .ok data) (hne : data ≠ []) :
    (fs.WriteTasks J ts disk).1 = none ∧
    ((fs.WriteTasks J ts disk).2 fs.filename).content = some data ∧
    (fs.ReadTasks J (fs.WriteTasks J ts disk).2).1 =
      match J.Unmarshal data with
      | .error e => .error ("failed to unmarshal JSON data: " ++ e)
      | .ok tasks => .ok tasks := by
  have hw : fs.WriteTasks J ts disk =
      (none, (disk.set fs.filename { disk fs.filename with content := some [] }).set
        fs.filename { disk fs.filename with content := some data }) := by
    simp [FileStorage.WriteTasks, OpenFile, hopen, hmarshal, Write, Disk.set_same, hwrite,
      writeAt_empty]
  have hlen : data.length > 0 := List.length_pos.2 hne
  rw [hw]
  refine ⟨rfl, by simp [Disk.set_same], ?_⟩
  rcases hun : J.Unmarshal data with e | tasks <;>
    simp [FileStorage.ReadTasks, OpenFile, Disk.set_same, hopen, ReadAll, hread, hlen, hun]

/-- C13 (as stated, refuted): the collection holding one task created in the year
10000, written to `tasks.json`. `WriteTasks` returns the error of `json.Marshal`
(`Time.MarshalJSON` refuses a year of five digits), having already cut the file
to length 0 on opening it, and `ReadTasks` then returns the empty collection,
not the one that was written. -/
theorem FileStorage_year10000 :
    ((⟨"tasks.json"⟩ : FileStorage).WriteTasks goJSON [farAhead] staleDisk).1 =
      some ("failed to marshal tasks: json: error calling MarshalJSON for type *time.Time: " ++
        "Time.MarshalJSON: year outside of range [0,9999]") ∧
    ((⟨"tasks.json"⟩ : FileStorage).ReadTasks goJSON
      ((⟨"tasks.json"⟩ : FileStorage).WriteTasks goJSON [farAhead] staleDisk).2).1 = .ok [] ∧
    [farAhead] ≠ ([] : List Task) := by
  refine ⟨by decide, by rfl, by decide⟩

/-- C13 (amended): storage round trip. For every sequence of tasks `ts` whose
timestamps are nil or have years from 0 to 9999 (and whose ids are `int64`
values), every file name and every state of the file system, whatever the file
held before, when the operating system lets the file be opened, written and
read: `WriteTasks(ts)` returns no error and `ReadTasks()` on the same file then
returns, without error, a sequence equal to `ts` in every field. -/
theorem FileStorage_roundtrip (fs : FileStorage) (disk : Disk) (ts : List Task)
    (hopen : (disk fs.filename).openErr = none) (hread : (disk fs.filename).readErr = none)
    (hwrite : (disk fs.filename).writeErr = none) (hts : ∀ t ∈ ts, t.writable) :
    (fs.WriteTasks goJSON ts disk).1 = none ∧
    (fs.ReadTasks goJSON (fs.WriteTasks goJSON ts disk).2).1 = .ok ts := by
  obtain ⟨data, hdata⟩ := goJSON_marshal_ok ts hts
  obtain ⟨hback, hne⟩ := goJSON_roundtrip ts data hdata (fun t ht => (hts t ht).1)
  obtain ⟨h1, -, h3⟩ := FileStorage_write_read goJSON fs disk ts data hopen hread hwrite hdata hne
  refine ⟨h1, ?_⟩
  rw [h3, hback]

/-- Witness for C13: tasks 1 and 2, written to and read back from `tasks.json` in a
file system where that file held 200 stale bytes. -/
theorem FileStorage_roundtrip_witness :
    ((⟨"tasks.json"⟩ : FileStorage).WriteTasks goJSON [groceries, dinner] staleDisk).1 = none ∧
    ((⟨"tasks.json"⟩ : FileStorage).ReadTasks goJSON
      ((⟨"tasks.json"⟩ : FileStorage).WriteTasks goJSON [groceries, dinner] staleDisk).2).1 =
      .ok [groceries, dinner] :=
  FileStorage_roundtrip ⟨"tasks.json"⟩ staleDisk [groceries, dinner] rfl rfl rfl (by decide)

/-! ## The legacy program -/

/-- C14 (the code at the failing input): with the empty task list, which `main`
passes when `task.json` is missing or empty, and the argument "1", the capacity
`len(tasks)-1` is -1 and `deleteTask` ends in the run-time panic of `make`,
without having called `writeToFile`, printed anything or touched the file. -/
theorem deleteTask_empty_list_panics (J : JSON) (file : Legacy.File) :
    ((([] : List Task).length : Int) - 1 = -1) ∧
    Legacy.deleteTask J ["1"] file [] =
      ⟨some "runtime error: makeslice: cap out of range", file, [], []⟩ := by
  have hparse : Legacy.ParseInt "1" = some 1 := by decide
  refine ⟨by decide, ?_⟩
  simp [Legacy.deleteTask, hparse, Legacy.makeSlice]

end TaskTracker
